import Mathlib

/-!
Verification development for the `rcv` cast-vote-record ingestion pipelines
(`scc_ingest.py` for the wide-spreadsheet vendor path and `sf_ingest.py` for
the nested per-ballot document vendor path).

The Python sources are embedded shallowly: pandas data frames become lists of
records, numpy integer casts become explicit wrap-around arithmetic on `Int`,
and fatal assertions become `Except` errors.  The helper module `common_lib`
and the vendor transformer lists (`scc_transformers`, `sf_transformers`) are
not part of the repository sources; the pieces of them that the pipelines use
(`transform` and the external writer) are modelled from the specification and
are marked as such in their doc comments.
-/

set_option maxRecDepth 10000

namespace Rcv

/-- Wrap-around semantics of a numpy `astype(np.int8)` cast. -/
def toInt8 (n : Int) : Int := (n + 128) % 256 - 128

/-- Wrap-around semantics of a numpy `astype(np.int16)` cast. -/
def toInt16 (n : Int) : Int := (n + 32768) % 65536 - 32768

/-- Wrap-around semantics of a numpy `astype(np.int32)` cast. -/
def toInt32 (n : Int) : Int := (n + 2147483648) % 4294967296 - 2147483648

/-- Fuel-indexed helper for `firstSeen`; the fuel bounds the recursion depth
structurally so that the definition evaluates by reduction. -/
def firstSeenAux {α : Type} [DecidableEq α] : Nat → List α → List α
  | _, [] => []
  | 0, _ :: _ => []
  | fuel + 1, x :: xs => x :: firstSeenAux fuel (xs.filter (fun y => y ≠ x))

/-- The distinct values of a list in order of first appearance.  This is the
sequence of `uniques` produced by `pandas.factorize`. -/
def firstSeen {α : Type} [DecidableEq α] (l : List α) : List α :=
  firstSeenAux l.length l

/-- The code `pandas.factorize` over the values `l` assigns to the value `x`:
the position of `x` in the first-seen sequence of distinct values. -/
def factorizeCode {α : Type} [DecidableEq α] (l : List α) (x : α) : Nat :=
  (firstSeen l).indexOf x

/-- The integer codes produced by `pandas.factorize`: each element is replaced
by the position of its value in the first-seen sequence of distinct values. -/
def factorizeCodes {α : Type} [DecidableEq α] (l : List α) : List Nat :=
  l.map (factorizeCode l)

/-- Lexicographic comparison of character lists by code point, the order
pandas uses when sorting string categories. -/
def listLeb : List Char → List Char → Bool
  | [], _ => true
  | _ :: _, [] => false
  | a :: as, b :: bs =>
    if a.toNat < b.toNat then true
    else if b.toNat < a.toNat then false
    else listLeb as bs

/-- Lexicographic code-point order on strings. -/
def strLeb (a b : String) : Bool := listLeb a.toList b.toList

/-- The categories of a pandas categorical built from the values `l`:
the distinct values in ascending lexicographic order. -/
def categories (l : List String) : List String :=
  (firstSeen l).insertionSort (fun a b => strLeb a b = true)

/-- The categorical code assigned to the value `d` by a pandas categorical
over the values `l`: its position among the sorted distinct values. -/
def catCode (l : List String) (d : String) : Nat :=
  (categories l).indexOf d

/-- Monadic map over `Except`, stopping at the first error.  This mirrors a
row-wise pandas `apply` of a function that can raise. -/
def mapME {α β ε : Type} (f : α → Except ε β) : List α → Except ε (List β)
  | [] => .ok []
  | a :: l => do
    let b ← f a
    let bs ← mapME f l
    return b :: bs

/-- Python `str.replace("  ", " ")`: one left-to-right pass replacing each
non-overlapping occurrence of two spaces by a single space. -/
def collapseSpaces : List Char → List Char
  | c1 :: c2 :: rest =>
    if c1 = ' ' ∧ c2 = ' ' then ' ' :: collapseSpaces rest
    else c1 :: collapseSpaces (c2 :: rest)
  | l => l

/-- Whether a character list contains two adjacent spaces. -/
def hasDouble : List Char → Bool
  | c1 :: c2 :: rest => (c1 == ' ' && c2 == ' ') || hasDouble (c2 :: rest)
  | _ => false

/-- Whether a character list contains three adjacent spaces. -/
def hasTriple : List Char → Bool
  | c1 :: c2 :: c3 :: rest => (c1 == ' ' && c2 == ' ' && c3 == ' ') || hasTriple (c2 :: c3 :: rest)
  | _ => false

/-- Split a character list at its last comma: returns the part before and the
(comma-free) part after it. -/
def splitLastComma : List Char → Option (List Char × List Char)
  | [] => none
  | c :: cs =>
    match splitLastComma cs with
    | some (a, b) => some (c :: a, b)
    | none => if c = ',' then some ([], cs) else none

/-- Numeric value of a list of decimal digit characters. -/
def digitsToNat (l : List Char) : Nat :=
  l.foldl (fun n c => 10 * n + (c.toNat - '0'.toNat)) 0

/-- The search for `" \(Vote For=(\d+)\)$"` in `standardize` of
`scc_ingest.py`: the string must end with the suffix, whose digits give the
vote-for count; the part before the match is returned alongside. -/
def voteForSuffix (s : List Char) : Option (List Char × Nat) :=
  match s.reverse with
  | ')' :: r1 =>
    let ds := r1.takeWhile Char.isDigit
    let r2 := r1.drop ds.length
    if ds.isEmpty then none
    else if r2.take 11 = (" (Vote For=".toList).reverse then
      some ((r2.drop 11).reverse, digitsToNat ds.reverse)
    else none
  | _ => none

/-- The search for `", ([^,]*) Term$"` in `standardize` of `scc_ingest.py`.
Returns the remaining string and the term label; when the pattern is absent
the string is unchanged and the term is `"Full"`. -/
def termSuffix (s : List Char) : List Char × List Char :=
  match splitLastComma s with
  | none => (s, "Full".toList)
  | some (a, b) =>
    if b.length ≥ 6 ∧ b.head? = some ' ' ∧ (b.drop 1).drop (b.length - 6) = " Term".toList then
      (a, (b.drop 1).take (b.length - 6))
    else (s, "Full".toList)

/-- Python `int(...)` on a string column: accepts decimal digit strings. -/
def strToNat? (s : String) : Option Nat :=
  if s.toList ≠ [] ∧ s.toList.all Char.isDigit then some (digitsToNat s.toList) else none

/-- Index of the last character satisfying `p`, if any. -/
def lastIdxWhere (p : Char → Bool) (s : List Char) : Option Nat :=
  match s.reverse.findIdx? p with
  | none => none
  | some i => some (s.length - 1 - i)

/-- The leftmost greedy match of `"(.+) \((.+)\)"` used by
`check_and_clean_id_invariants` on the ballot-type column: the first group is
everything before the last `" ("` that is followed (not necessarily
immediately) by a closing parenthesis, the second group runs to the last
closing parenthesis. -/
def ballotTypeMatch (s : List Char) : Option (List Char × List Char) :=
  match lastIdxWhere (· == ')') s with
  | none => none
  | some kk =>
    let js := (List.range s.length).filter (fun j =>
      decide (1 ≤ j) && (s.getD j ' ' == ' ') && (s.getD (j + 1) ')' == '(') &&
        decide (j + 3 ≤ kk))
    match js.max? with
    | none => none
    | some j => some (s.take j, (s.drop (j + 2)).take (kk - (j + 2)))

/-- Greedy match of `"0*(\d+) \((\d+)-?(\d*)\)"` at the head of `s`, as used by
`check_and_clean_id_invariants` on the precinct-portion column.  Returns the
zero-stripped leading number and the two embedded precinct values. -/
def precinctMatchAt (s : List Char) : Option (List Char × List Char × List Char) :=
  let zs := s.takeWhile (· == '0')
  let rest1 := s.drop zs.length
  let ds := rest1.takeWhile Char.isDigit
  let a := if ds.isEmpty then (if zs.isEmpty then ([] : List Char) else ['0']) else ds
  let rest2 := rest1.drop ds.length
  if a.isEmpty then none
  else
    match rest2 with
    | ' ' :: '(' :: rest3 =>
      let p1 := rest3.takeWhile Char.isDigit
      if p1.isEmpty then none
      else
        let rest4 := rest3.drop p1.length
        let pr :=
          match rest4 with
          | '-' :: r => (r.takeWhile Char.isDigit, r.drop (r.takeWhile Char.isDigit).length)
          | _ => (([] : List Char), rest4)
        match pr.2 with
        | ')' :: _ => some (a, p1, pr.1)
        | _ => none
    | _ => none

/-- `re.search` of the precinct-portion pattern: try a match at every start
position from the left. -/
def precinctSearch : List Char → Option (List Char × List Char × List Char)
  | [] => none
  | c :: rest =>
    match precinctMatchAt (c :: rest) with
    | some r => some r
    | none => precinctSearch rest

/-- A parsed `(level, jurisdiction, office, district)` identity. -/
structure Office4 where
  level : String
  jurisdiction : String
  office : String
  district : String
deriving DecidableEq, Repr

/-- A vendor pattern-matcher: accepts a contest description or declines. -/
def Matcher : Type := String → Option Office4

/-- Modelled from the spec: `transform` lives in `common_lib`, which is not
among the repository sources.  Per the spec it applies an ordered,
vendor-specific list of pattern-matchers to the description; each matcher
either returns a `(level, jurisdiction, office, district)` tuple or declines;
the first match wins, and no matcher matching is a fatal
`UnrecognizedContestFormat` condition (here: `none`). -/
def transform (s : String) (ts : List Matcher) : Option Office4 :=
  match ts with
  | [] => none
  | t :: rest =>
    match t s with
    | some o => some o
    | none => transform s rest

/-- The structured output of `standardize` in `scc_ingest.py`. -/
structure StdContest where
  level : String
  jurisdiction : String
  office : String
  district : String
  term : String
  voteFor : Nat
deriving DecidableEq, Repr

/-- `standardize` of `scc_ingest.py`: collapse double spaces, strip the
mandatory `(Vote For=N)` suffix, strip an optional `, X Term` suffix
(defaulting the term to `"Full"`), then run the transformer chain on the rest.
`none` models the fatal conditions (a missing vote-for suffix crashes the
regex group access; an unmatched description raises in `transform`). -/
def standardize (ts : List Matcher) (contest : String) : Option StdContest :=
  let s1 := collapseSpaces contest.toList
  match voteForSuffix s1 with
  | none => none
  | some sv =>
    let st := termSuffix sv.1
    match transform (String.mk st.1) ts with
    | none => none
    | some o =>
      some { level := o.level, jurisdiction := o.jurisdiction, office := o.office
             district := o.district, term := String.mk st.2, voteFor := sv.2 }

/-- The fatal conditions of the two ingestion paths. -/
inductive IngestErr where
  | imprintedMismatch
  | ballotTypeMismatch
  | precinctMismatch
  | badNumber
  | unrecognizedContest (s : String)
  | writeInKeyError
deriving DecidableEq, Repr

/-- The seven redundant per-ballot identity columns of the wide extract
(after the external `read_raw`/`reformat_strings` byte-string cleanup). -/
structure RawBallotIds where
  tabulator : String
  batch : String
  record : String
  imprinted : String
  countingGroup : String
  ballotType : String
  precinctPortion : String
deriving DecidableEq, Repr

/-- The identity columns after `ImprintedId` has been dropped. -/
structure BallotIds2 where
  tabulator : String
  batch : String
  record : String
  countingGroup : String
  ballotType : String
  precinctPortion : String
deriving DecidableEq, Repr

/-- Dropping the `ImprintedId` column (line 75 of `scc_ingest.py`). -/
def dropImprinted (r : RawBallotIds) : BallotIds2 :=
  { tabulator := r.tabulator, batch := r.batch, record := r.record
    countingGroup := r.countingGroup, ballotType := r.ballotType
    precinctPortion := r.precinctPortion }

/-- One mark column of the three-row header: contest / candidate / party. -/
structure MarkCol where
  contest : String
  candidate : String
  party : String
deriving DecidableEq, Repr

/-- One raw row of the wide extract: the first column (the ballot number used
as index), the identity columns, and one optional rank per mark column
(`pd.read_csv` with `na_values=[0]` already turned missing and zero cells
into `none`). -/
structure SccRow where
  cvrNum : Int
  ids : RawBallotIds
  marks : List (Option Int)
deriving DecidableEq, Repr

/-- The raw wide extract handed to `preprocess` in `scc_ingest.py`. -/
structure SccRaw where
  cols : List MarkCol
  rows : List SccRow
deriving DecidableEq, Repr

/-- A row of the output `CvrRecord` table of the wide path. -/
structure CvrRecord where
  cvrId : Int
  tabulator : Int
  batch : Int
  recordId : Int
  countingGroup : String
  ballotType : String
  precinct1 : String
  precinct2 : String
deriving DecidableEq, Repr

/-- Line 71-72 of `scc_ingest.py`: a ballot passes the imprinted-id check when
the raw imprinted id equals the dash-joined tabulator, batch and record ids,
or is empty. -/
def imprintedOkRow (r : RawBallotIds) : Bool :=
  (r.imprinted == r.tabulator ++ "-" ++ r.batch ++ "-" ++ r.record) || (r.imprinted == "")

/-- Lines 71-75 of `scc_ingest.py`: assert the imprinted-id invariant over all
ballots, then drop the raw `ImprintedId` column. -/
def checkImprinted (rows : List (Int × RawBallotIds)) :
    Except IngestErr (List (Int × BallotIds2)) :=
  if rows.all (fun r => imprintedOkRow r.2) then
    .ok (rows.map (fun r => (r.1, dropImprinted r.2)))
  else .error .imprintedMismatch

/-- Lines 79-81: the ballot-type column must match `"(.+) \((.+)\)"` with both
groups equal (a failed extraction yields NaN, which also fails the check). -/
def ballotTypeOkRow (r : BallotIds2) : Bool :=
  match ballotTypeMatch r.ballotType.toList with
  | some ab => ab.1 == ab.2
  | none => false

/-- Lines 85-89: the precinct-portion column must match
`"0*(\d+) \((\d+)-?(\d*)\)"` with the zero-stripped number equal to the first
embedded precinct value. -/
def precinctOkRow (r : BallotIds2) : Bool :=
  match precinctSearch r.precinctPortion.toList with
  | some ap => ap.1 == ap.2.1
  | none => false

/-- Assemble one clean `CvrRecord` row; only reached after all checks and
numeric conversions of `check_and_clean_id_invariants` have succeeded, so the
fallback values are never used on that path. -/
def buildCvr (r : Int × BallotIds2) : CvrRecord :=
  { cvrId := r.1
    tabulator := toInt16 ((strToNat? r.2.tabulator).getD 0 : Nat)
    batch := toInt16 ((strToNat? r.2.batch).getD 0 : Nat)
    recordId := toInt32 ((strToNat? r.2.record).getD 0 : Nat)
    countingGroup := r.2.countingGroup
    ballotType :=
      match ballotTypeMatch r.2.ballotType.toList with
      | some ab => String.mk ab.1
      | none => ""
    precinct1 :=
      match precinctSearch r.2.precinctPortion.toList with
      | some ap => String.mk ap.2.1
      | none => ""
    precinct2 :=
      match precinctSearch r.2.precinctPortion.toList with
      | some ap => String.mk ap.2.2
      | none => "" }

/-- The remainder of `check_and_clean_id_invariants` after the imprinted-id
step, in source order: the int16 casts of tabulator/batch (a non-numeric
string aborts the cast), the ballot-type assertion, the precinct assertion,
and the int32 cast of the record id. -/
def sccCheckRest (rows : List (Int × BallotIds2)) : Except IngestErr (List CvrRecord) :=
  if ¬ rows.all (fun r => (strToNat? r.2.tabulator).isSome && (strToNat? r.2.batch).isSome) then
    .error .badNumber
  else if ¬ rows.all (fun r => ballotTypeOkRow r.2) then .error .ballotTypeMismatch
  else if ¬ rows.all (fun r => precinctOkRow r.2) then .error .precinctMismatch
  else if ¬ rows.all (fun r => (strToNat? r.2.record).isSome) then .error .badNumber
  else .ok (rows.map buildCvr)

/-- Substring test used for the `"Unnamed"` header cleanup. -/
def containsSub (pat : List Char) : List Char → Bool
  | [] => pat.isEmpty
  | c :: rest => pat.isPrefixOf (c :: rest) || containsSub pat rest

/-- Line 112 of `scc_ingest.py`: header cells containing `"Unnamed"` become
the empty string. -/
def unnamedFix (s : String) : String :=
  if containsSub "Unnamed".toList s.toList then "" else s

/-- Lines 115-117: the regex replacement `BONDS—(YES|NO)` → the bare
`YES`/`NO`, applied to every non-overlapping occurrence left to right. -/
def bondFixAux : List Char → List Char
  | 'B' :: 'O' :: 'N' :: 'D' :: 'S' :: '—' :: 'Y' :: 'E' :: 'S' :: rest =>
    'Y' :: 'E' :: 'S' :: bondFixAux rest
  | 'B' :: 'O' :: 'N' :: 'D' :: 'S' :: '—' :: 'N' :: 'O' :: rest =>
    'N' :: 'O' :: bondFixAux rest
  | c :: rest => c :: bondFixAux rest
  | [] => []

def bondFix (s : String) : String := String.mk (bondFixAux s.toList)

/-- A column of the reshaped frame after `update_column_index`: the contest
description and the candidate description joined with the party by `";"`. -/
structure MeltCol where
  contest : String
  candidate : String
deriving DecidableEq, Repr

/-- The column transformation `update_column_index` applies once the write-in
drop has succeeded: drop the write-in columns, blank the `"Unnamed"` header
cells, collapse the bond naming pattern, and join candidate and party with
`";"`. -/
def updateColumnsOk (cols : List MarkCol) : List MeltCol :=
  (cols.filter (fun c => c.candidate ≠ "Write-in")).map (fun c =>
    { contest := unnamedFix c.contest
      candidate := bondFix (unnamedFix c.candidate) ++ ";" ++ unnamedFix c.party })

/-- `update_column_index` of `scc_ingest.py`: `df.drop(columns="Write-in",
level=1)` raises `KeyError` (the pandas default `errors="raise"`) when no
column carries the `"Write-in"` candidate label; otherwise the write-in
columns are dropped and the header rewrite of `updateColumnsOk` is applied. -/
def updateColumns (cols : List MarkCol) : Except IngestErr (List MeltCol) :=
  if cols.any (fun c => c.candidate = "Write-in") then .ok (updateColumnsOk cols)
  else .error IngestErr.writeInKeyError

/-- One long-format record produced by `tidy`. -/
structure MeltRow where
  cvrId : Int
  contest : String
  candidate : String
  rank : Int
deriving DecidableEq, Repr

/-- The mark cells of a raw row that survive the write-in column drop,
aligned with `updateColumns`. -/
def keptMarks (cols : List MarkCol) (r : SccRow) : List (Option Int) :=
  ((cols.zip r.marks).filter (fun p => p.1.candidate ≠ "Write-in")).map (fun p => p.2)

/-- `tidy` of `scc_ingest.py`: melt the wide frame into one record per
non-missing rank (missing ranks are dropped, int8 cast on the rank), keeping
the ballot id.  `melt` stacks column by column. -/
def sccMelt (cols : List MarkCol) (rows : List (Int × SccRow)) : List MeltRow :=
  ((updateColumnsOk cols).enum).flatMap (fun ic =>
    rows.filterMap (fun r =>
      ((keptMarks cols r.2).getD ic.1 none).map (fun rank =>
        { cvrId := r.1, contest := ic.2.contest, candidate := ic.2.candidate
          rank := toInt8 rank })))

/-- A row of the output `Contest` table of the wide path. -/
structure ContestRow where
  contestId : Int
  term : String
  voteFor : Int
  ranked : Bool
  officeId : Int
deriving DecidableEq, Repr

/-- A row of the output `Office` table. -/
structure OfficeRow where
  officeId : Int
  level : String
  jurisdiction : String
  office : String
  district : String
deriving DecidableEq, Repr

/-- A row of the output `Candidate` table of the wide path. -/
structure CandidateRow where
  candidateId : Int
  name : Option String
  party : Option String
deriving DecidableEq, Repr

/-- A row of the output `Mark` table of the wide path. -/
structure MarkRow where
  cvrId : Int
  contestId : Int
  rank : Int
  candidateId : Int
deriving DecidableEq, Repr

/-- The five output tables of the wide path. -/
structure SccTables where
  cvr : List CvrRecord
  contests : List ContestRow
  offices : List OfficeRow
  candidates : List CandidateRow
  marks : List MarkRow
deriving DecidableEq, Repr

/-- The `(level, jurisdiction, office, district)` identity of a parsed
contest. -/
def office4Of (p : StdContest) : Office4 :=
  { level := p.level, jurisdiction := p.jurisdiction, office := p.office
    district := p.district }

/-- The `Office` table: `drop_duplicates` keeps the first occurrence of each
`(level, jurisdiction, office, district, office_id)` row produced by
`factorize` over the contest sequence. -/
def officesFrom (tuples : List Office4) : List OfficeRow :=
  (firstSeen (tuples.zip (factorizeCodes tuples))).map (fun tc =>
    { officeId := toInt16 tc.2, level := tc.1.level, jurisdiction := tc.1.jurisdiction
      office := tc.1.office, district := tc.1.district })

/-- `split_contest` of `scc_ingest.py`: standardize every distinct contest
description (in sorted category order), factorize the office identity into
dense first-seen ids, and emit the `Contest` and `Office` tables.  The table
index is the int16-cast position. -/
def sccSplitContest (ts : List Matcher) (cats : List String) :
    Except IngestErr (List ContestRow × List OfficeRow) := do
  let parsed ← mapME (fun d =>
    match standardize ts d with
    | some r => .ok r
    | none => .error (IngestErr.unrecognizedContest d)) cats
  let tuples := parsed.map office4Of
  let codes := factorizeCodes tuples
  let contests := (parsed.zip codes).enum.map (fun x =>
    { contestId := toInt16 (x.1 : Int), term := x.2.1.term
      voteFor := toInt8 (x.2.1.voteFor : Int), ranked := false
      officeId := toInt16 (x.2.2 : Int) })
  return (contests, officesFrom tuples)

/-- `e.split(";")` into name and party, with empty strings stored as absent
(the `replace("", None)` of `split_candidate`). -/
def splitSemi (s : String) : Option String × Option String :=
  let l := s.toList
  let name := l.takeWhile (fun c => c ≠ ';')
  let party := (l.dropWhile (fun c => c ≠ ';')).drop 1
  (if name.isEmpty then none else some (String.mk name),
   if party.isEmpty then none else some (String.mk party))

/-- `split_candidate` of `scc_ingest.py`: split each distinct candidate
description (in sorted category order) into name and party; the table index
is the int16-cast position. -/
def sccSplitCandidate (cats : List String) : List CandidateRow :=
  cats.enum.map (fun x =>
    { candidateId := toInt16 (x.1 : Int), name := (splitSemi x.2).1
      party := (splitSemi x.2).2 })

/-- Lexicographic order on the `(cvr_id, contest_id, rank)` mark index. -/
def tripleLe (a b : Int × Int × Int) : Prop :=
  a.1 < b.1 ∨ (a.1 = b.1 ∧ (a.2.1 < b.2.1 ∨ (a.2.1 = b.2.1 ∧ a.2.2 ≤ b.2.2)))

instance : DecidableRel tripleLe := fun a b => by unfold tripleLe; infer_instance

instance {β : Type} (key : β → Int × Int × Int) :
    DecidableRel (fun a b => tripleLe (key a) (key b)) :=
  fun a b => inferInstanceAs (Decidable (tripleLe (key a) (key b)))

/-- The final `sort_index` over a three-part integer key. -/
def sortByTriple {β : Type} (key : β → Int × Int × Int) (l : List β) : List β :=
  l.insertionSort (fun a b => tripleLe (key a) (key b))

/-- The rewriting of the melted records to surrogate ids (`set_levels` with
the int16 table indexes) followed by the final index sort. -/
def sccMarks (descs cands : List String) (melted : List MeltRow) : List MarkRow :=
  sortByTriple (fun m => (m.cvrId, m.contestId, m.rank))
    (melted.map (fun m =>
      { cvrId := m.cvrId, contestId := toInt16 (catCode descs m.contest : Int)
        rank := m.rank, candidateId := toInt16 (catCode cands m.candidate : Int) }))

/-- `preprocess` of `scc_ingest.py`: index by the int32-cast first column,
split off and validate the identity columns, reshape, and split the contest
and candidate identities into their own tables. -/
def sccPreprocess (ts : List Matcher) (raw : SccRaw) : Except IngestErr SccTables := do
  let rows := raw.rows.map (fun r => (toInt32 r.cvrNum, r))
  let ids2 ← checkImprinted (rows.map (fun r => (r.1, r.2.ids)))
  let cvr ← sccCheckRest ids2
  let mcols ← updateColumns raw.cols
  let melted := sccMelt raw.cols rows
  let descs := mcols.map (fun c => c.contest)
  let cands := mcols.map (fun c => c.candidate)
  let co ← sccSplitContest ts (categories descs)
  return { cvr := cvr, contests := co.1, offices := co.2
           candidates := sccSplitCandidate (categories cands)
           marks := sccMarks descs cands melted }

/-- The handed-off output of one wide-path run. -/
structure SccWritten where
  tables : SccTables
deriving DecidableEq, Repr

/-- Modelled from the spec: `write` lives in `common_lib`, which is not among
the repository sources; it serializes the five tables, which is out of scope,
so it is modelled as handing the tables off unchanged. -/
def sccWrite (t : SccTables) : SccWritten := ⟨t⟩

/-- `preprocess_path` of `scc_ingest.py`: read (external), preprocess,
write. -/
def sccPreprocessPath (ts : List Matcher) (raw : SccRaw) : Except IngestErr SccWritten := do
  let t ← sccPreprocess ts raw
  return sccWrite t

/-- One mark of a nested per-ballot document. -/
structure SfMarkJson where
  candidateId : Int
  rank : Int
  isVote : Bool
  isAmbiguous : Bool
deriving DecidableEq, Repr

/-- One contest entry of a card. -/
structure SfContestJson where
  id : Int
  marks : List SfMarkJson
deriving DecidableEq, Repr

/-- One card of a session. -/
structure SfCard where
  contests : List SfContestJson
deriving DecidableEq, Repr

/-- One session; `cards` models `sess["Original"]["Cards"]`. -/
structure SfSession where
  cards : List SfCard
deriving DecidableEq, Repr

/-- One file of the inner archive. -/
structure SfFile where
  filename : String
  sessions : List SfSession
deriving DecidableEq, Repr

/-- One record of `ContestManifest.json`. -/
structure SfContestMan where
  id : Int
  externalId : Int
  districtId : Int
  voteFor : Int
  numOfRanks : Int
  disabled : Bool
  description : String
deriving DecidableEq, Repr

/-- One record of `CandidateManifest.json`. -/
structure SfCandidateMan where
  id : Int
  externalId : String
  contestId : Int
  candidateType : String
  disabled : Bool
  description : String
deriving DecidableEq, Repr

/-- The raw nested extract handed to the document path. -/
structure SfRaw where
  contestMan : List SfContestMan
  candidateMan : List SfCandidateMan
  files : List SfFile
deriving DecidableEq, Repr

/-- The sequence of cards visited by the `read_raw` loop of `sf_ingest.py`:
files whose names start with `"CvrExport_"`, their sessions, their cards, in
order, each paired with its filename.  The sequential `cvr_id` counter of the
loop is the position in this sequence. -/
def sfCardSeq (files : List SfFile) : List (String × SfCard) :=
  (files.filter (fun f => "CvrExport_".toList.isPrefixOf f.filename.toList)).flatMap (fun f =>
    (f.sessions.flatMap (fun s => s.cards)).map (fun c => (f.filename, c)))

/-- The `cvr_data` rows built by `read_raw`: one `[cvr_id, filename]` pair per
card, with ids assigned by the incrementing counter. -/
def sfReadCvrRows (files : List SfFile) : List (Nat × String) :=
  (sfCardSeq files).enum.map (fun x => (x.1, x.2.1))

/-- One `mark_data` row built by `read_raw`. -/
structure SfMarkRaw where
  cvrId : Nat
  contestId : Int
  candidateId : Int
  rank : Int
  isVote : Bool
  isAmbiguous : Bool
deriving DecidableEq, Repr

/-- The `mark_data` rows built by `read_raw`: for each card, each contest, and
each mark, one row carrying the current `cvr_id`. -/
def sfReadMarkRows (files : List SfFile) : List SfMarkRaw :=
  (sfCardSeq files).enum.flatMap (fun x =>
    x.2.2.contests.flatMap (fun ct =>
      ct.marks.map (fun mk =>
        { cvrId := x.1, contestId := ct.id, candidateId := mk.candidateId
          rank := mk.rank, isVote := mk.isVote, isAmbiguous := mk.isAmbiguous })))

/-- A row of the output ballot table of the document path. -/
structure SfCvrRow where
  cvrId : Int
  filename : String
deriving DecidableEq, Repr

/-- A row of the output `Contest` table of the document path (after the
description and the office columns have been split off). -/
structure SfContestRow where
  contestId : Int
  externalId : Int
  districtId : Int
  voteFor : Int
  numOfRanks : Int
  disabled : Bool
  ranked : Bool
  officeId : Int
deriving DecidableEq, Repr

/-- A row of the output `Candidate` table of the document path. -/
structure SfCandidateRow where
  candidateId : Int
  name : String
  externalId : String
  contestId : Int
  candidateType : String
  disabled : Bool
  party : Option String
deriving DecidableEq, Repr

/-- A row of the output `Mark` table of the document path. -/
structure SfMarkRow where
  cvrId : Int
  contestId : Int
  rank : Int
  candidateId : Int
  isVote : Bool
  isAmbiguous : Bool
deriving DecidableEq, Repr

/-- The five output tables of the document path. -/
structure SfTables where
  cvr : List SfCvrRow
  contests : List SfContestRow
  offices : List OfficeRow
  candidates : List SfCandidateRow
  marks : List SfMarkRow
deriving DecidableEq, Repr

/-- `sort_index` over a single integer key. -/
def intKeyLe {β : Type} (key : β → Int) (a b : β) : Prop := key a ≤ key b

instance {β : Type} (key : β → Int) : DecidableRel (intKeyLe key) :=
  fun a b => inferInstanceAs (Decidable (key a ≤ key b))

def sortByKey {β : Type} (key : β → Int) (l : List β) : List β :=
  l.insertionSort (intKeyLe key)

/-- The contest-manifest row after the dtype casts, the rename, and the
ranked/vote-for rewrite of lines 75-88 of `sf_ingest.py`: `ranked` holds
exactly when the (int8-cast) `NumOfRanks` exceeds 1, and for ranked contests
`vote_for` is overwritten with `NumOfRanks`. -/
structure SfContestCast where
  contestId : Int
  externalId : Int
  districtId : Int
  voteFor : Int
  numOfRanks : Int
  disabled : Bool
  ranked : Bool
  description : String
deriving DecidableEq, Repr

def sfCastContest (r : SfContestMan) : SfContestCast :=
  let nr := toInt8 r.numOfRanks
  let ranked := decide (1 < nr)
  { contestId := toInt16 r.id, externalId := toInt32 r.externalId
    districtId := toInt16 r.districtId
    voteFor := if ranked then nr else toInt8 r.voteFor
    numOfRanks := nr, disabled := r.disabled, ranked := ranked
    description := r.description }

/-- `standardize` of `sf_ingest.py`: run the transformer chain on the raw
description to obtain the four office fields. -/
def sfStandardize (ts : List Matcher) (description : String) : Option Office4 :=
  transform description ts

/-- `preprocess` of `sf_ingest.py`. -/
def sfPreprocess (ts : List Matcher) (raw : SfRaw) : Except IngestErr SfTables := do
  let cvr := (sfReadCvrRows raw.files).map (fun x =>
    ({ cvrId := toInt32 (x.1 : Int), filename := x.2 } : SfCvrRow))
  let sorted := sortByKey (fun c => c.contestId) (raw.contestMan.map sfCastContest)
  let parsed ← mapME (fun r =>
    match sfStandardize ts r.description with
    | some o => .ok (r, o)
    | none => .error (IngestErr.unrecognizedContest r.description)) sorted
  let tuples := parsed.map (fun p => p.2)
  let codes := factorizeCodes tuples
  let contests := (parsed.zip codes).map (fun x =>
    { contestId := x.1.1.contestId, externalId := x.1.1.externalId
      districtId := x.1.1.districtId, voteFor := x.1.1.voteFor
      numOfRanks := x.1.1.numOfRanks, disabled := x.1.1.disabled
      ranked := x.1.1.ranked, officeId := toInt16 (x.2 : Int) })
  let candidates := sortByKey (fun c => c.candidateId) (raw.candidateMan.map (fun r =>
    ({ candidateId := toInt16 r.id, name := r.description, externalId := r.externalId
       contestId := toInt16 r.contestId, candidateType := r.candidateType
       disabled := r.disabled, party := none } : SfCandidateRow)))
  let marks := sortByTriple (fun m => (m.cvrId, m.contestId, m.rank))
    ((sfReadMarkRows raw.files).map (fun m =>
      { cvrId := toInt32 (m.cvrId : Int), contestId := toInt16 m.contestId
        rank := toInt8 m.rank, candidateId := toInt16 m.candidateId
        isVote := m.isVote, isAmbiguous := m.isAmbiguous }))
  return { cvr := cvr, contests := contests, offices := officesFrom tuples
           candidates := candidates, marks := marks }

/-- The handed-off output of one document-path run. -/
structure SfWritten where
  tables : SfTables
deriving DecidableEq, Repr

/-- Modelled from the spec: the external writer of the document path. -/
def sfWrite (t : SfTables) : SfWritten := ⟨t⟩

/-- `preprocess_path` of `sf_ingest.py`. -/
def sfPreprocessPath (ts : List Matcher) (raw : SfRaw) : Except IngestErr SfWritten := do
  let t ← sfPreprocess ts raw
  return sfWrite t

/-! ### Concrete fixtures

The transformer chains live in `scc_transformers.py` and `sf_transformers.py`,
which are not among the repository sources; the fixtures below instantiate the
chain parameter with a single matcher modelled from the example in the spec
(`"Governor (Vote For=1)"` resolved by the matching transformer). -/

/-- Modelled from the spec: an example pattern-matcher of the vendor chain,
resolving the office of the `"Governor"` description. -/
def govMatcher : Matcher := fun s =>
  if s = "Governor" then
    some { level := "state", jurisdiction := "California", office := "Governor"
           district := "California" }
  else none

/-- Modelled from the spec: an example pattern-matcher resolving
`"City Council"`. -/
def cityCouncilMatcher : Matcher := fun s =>
  if s = "City Council" then
    some { level := "city", jurisdiction := "San Jose", office := "City Council"
           district := "San Jose" }
  else none

/-- Identity columns that pass every check of
`check_and_clean_id_invariants`. -/
def goodIds : RawBallotIds :=
  { tabulator := "1", batch := "2", record := "3", imprinted := "1-2-3"
    countingGroup := "X", ballotType := "A (A)", precinctPortion := "7 (7)" }

/-- A wide extract with one parseable contest column, the contest's write-in
column (dropped by `update_column_index`), and one ballot. -/
def sccGoodRaw : SccRaw :=
  { cols := [{ contest := "Governor (Vote For=1)", candidate := "Alice", party := "DEM" },
             { contest := "Unnamed: 8_level_0", candidate := "Write-in"
               party := "Unnamed: 8_level_2" }]
    rows := [{ cvrNum := 5, ids := goodIds, marks := [some 1, none] }] }

/-- A wide extract whose two raw rows carry the same value in the first
(ballot-number) column; its write-in column keeps the column drop of
`update_column_index` from raising. -/
def sccDupRaw : SccRaw :=
  { cols := [{ contest := "Governor (Vote For=1)", candidate := "Alice", party := "DEM" },
             { contest := "Unnamed: 8_level_0", candidate := "Write-in"
               party := "Unnamed: 8_level_2" }]
    rows := [{ cvrNum := 7, ids := goodIds, marks := [some 1, none] },
             { cvrNum := 7, ids := goodIds, marks := [some 2, none] }] }

/-- A wide extract whose imprinted id is neither empty nor the dash-joined
tabulator/batch/record ids. -/
def sccBadImprintedRaw : SccRaw :=
  { cols := [{ contest := "Governor (Vote For=1)", candidate := "Alice", party := "DEM" }]
    rows := [{ cvrNum := 1
               ids := { goodIds with imprinted := "9-9-9" }, marks := [some 1] }] }

/-- A nested extract: one contest and one regular candidate in the manifests,
one card whose mark references them. -/
def sfGoodRaw : SfRaw :=
  { contestMan := [{ id := 1, externalId := 100, districtId := 5, voteFor := 1
                     numOfRanks := 3, disabled := false, description := "Governor" }]
    candidateMan := [{ id := 10, externalId := "e", contestId := 1
                       candidateType := "Regular", disabled := false
                       description := "Alice" }]
    files := [{ filename := "CvrExport_1.json"
                sessions := [{ cards := [{ contests :=
                  [{ id := 1, marks := [{ candidateId := 10, rank := 1
                                          isVote := true, isAmbiguous := false }] }] }] }] }] }

/-- A nested extract whose card references contest id 99, which is absent from
the contest manifest. -/
def sfOrphanRaw : SfRaw :=
  { contestMan := [{ id := 1, externalId := 100, districtId := 5, voteFor := 1
                     numOfRanks := 1, disabled := false, description := "Governor" }]
    candidateMan := [{ id := 10, externalId := "e", contestId := 1
                       candidateType := "Regular", disabled := false
                       description := "Alice" }]
    files := [{ filename := "CvrExport_1.json"
                sessions := [{ cards := [{ contests :=
                  [{ id := 99, marks := [{ candidateId := 50, rank := 1
                                           isVote := true, isAmbiguous := false }] }] }] }] }] }

/-- A nested extract whose card holds a mark for candidate 50, which the
candidate manifest lists with type `"WriteIn"`. -/
def sfWriteInRaw : SfRaw :=
  { contestMan := [{ id := 1, externalId := 100, districtId := 5, voteFor := 1
                     numOfRanks := 1, disabled := false, description := "Governor" }]
    candidateMan := [{ id := 50, externalId := "w", contestId := 1
                       candidateType := "WriteIn", disabled := false
                       description := "Write-in" }]
    files := [{ filename := "CvrExport_1.json"
                sessions := [{ cards := [{ contests :=
                  [{ id := 1, marks := [{ candidateId := 50, rank := 1
                                          isVote := true, isAmbiguous := false }] }] }] }] }] }

/-- Modelled from the spec: the referential-integrity property of the
document-path output — every mark references an existing contest and
candidate row. -/
def sfMarksRefIntegrity (t : SfTables) : Bool :=
  t.marks.all (fun m =>
    (t.contests.map (fun c => c.contestId)).contains m.contestId &&
      (t.candidates.map (fun c => c.candidateId)).contains m.candidateId)

/-- Modelled from the spec: no mark of the document-path output references a
candidate listed with the write-in type. -/
def sfNoWriteInMarks (t : SfTables) : Bool :=
  t.marks.all (fun m => t.candidates.all (fun c =>
    c.candidateId != m.candidateId || c.candidateType != "WriteIn"))

/-- The wide-path tables of the `sccGoodRaw` fixture. -/
def sccGoodT : SccTables :=
  (sccPreprocess [govMatcher] sccGoodRaw).toOption.getD ⟨[], [], [], [], []⟩

/-- The document-path tables of the `sfGoodRaw` fixture. -/
def sfGoodT : SfTables :=
  (sfPreprocess [govMatcher] sfGoodRaw).toOption.getD ⟨[], [], [], [], []⟩

instance {ε α : Type} [DecidableEq ε] [DecidableEq α] : DecidableEq (Except ε α) :=
  fun a b =>
    match a, b with
    | .error e, .error f =>
      match decEq e f with
      | isTrue h => isTrue (h ▸ rfl)
      | isFalse h => isFalse (fun hh => h (Except.error.inj hh))
    | .ok x, .ok y =>
      match decEq x y with
      | isTrue h => isTrue (h ▸ rfl)
      | isFalse h => isFalse (fun hh => h (Except.ok.inj hh))
    | .error _, .ok _ => isFalse (fun hh => Except.noConfusion hh)
    | .ok _, .error _ => isFalse (fun hh => Except.noConfusion hh)

/-- The ballot-id / identity-column pairs handed by `preprocess` to the
imprinted-id check (index already int32-cast by `set_index`). -/
def sccIdPairs (raw : SccRaw) : List (Int × RawBallotIds) :=
  (raw.rows.map (fun r => (toInt32 r.cvrNum, r))).map (fun r => (r.1, r.2.ids))

/-- The distinct contest descriptions of a wide extract, in category order. -/
def sccContestCats (raw : SccRaw) : List String :=
  categories ((updateColumnsOk raw.cols).map (fun c => c.contest))

/-! ### Helper lemmas -/

theorem toInt16_of_small {n : Int} (h0 : 0 ≤ n) (h : n < 32768) : toInt16 n = n := by
  unfold toInt16; omega

theorem toInt32_of_small {n : Int} (h0 : 0 ≤ n) (h : n < 2147483648) : toInt32 n = n := by
  unfold toInt32; omega

theorem firstSeenAux_eq_of_le {α : Type} [DecidableEq α] :
    ∀ (fuel : Nat) (l : List α), l.length ≤ fuel →
      firstSeenAux fuel l = firstSeenAux l.length l := by
  intro fuel
  induction fuel using Nat.strong_induction_on with
  | _ fuel ih =>
    intro l hl
    match fuel, l with
    | 0, [] => rfl
    | f + 1, [] => rfl
    | 0, x :: xs => simp at hl
    | f + 1, x :: xs =>
      simp only [List.length_cons] at hl
      show x :: firstSeenAux f ((xs.filter (fun y => y ≠ x))) =
        x :: firstSeenAux xs.length ((xs.filter (fun y => y ≠ x)))
      have hfl : (xs.filter (fun y => y ≠ x)).length ≤ xs.length :=
        List.length_filter_le _ _
      rw [ih f (by omega) _ (by omega), ih xs.length (by omega) _ (by omega)]

theorem firstSeen_nil {α : Type} [DecidableEq α] : firstSeen ([] : List α) = [] := rfl

theorem firstSeen_cons {α : Type} [DecidableEq α] (x : α) (xs : List α) :
    firstSeen (x :: xs) = x :: firstSeen (xs.filter (fun y => y ≠ x)) := by
  show firstSeenAux (x :: xs).length (x :: xs) = _
  have h1 : firstSeenAux (x :: xs).length (x :: xs) =
      x :: firstSeenAux xs.length (xs.filter (fun y => y ≠ x)) := rfl
  rw [h1, firstSeenAux_eq_of_le xs.length _ (List.length_filter_le _ _)]
  rfl

theorem imprintedOkRow_iff (r : RawBallotIds) :
    imprintedOkRow r = true ↔
      r.imprinted = "" ∨ r.imprinted = r.tabulator ++ "-" ++ r.batch ++ "-" ++ r.record := by
  simp [imprintedOkRow, or_comm]

theorem collapseSpaces_head? (l : List Char) : (collapseSpaces l).head? = l.head? := by
  match l with
  | [] => rfl
  | [c] => rfl
  | c1 :: c2 :: rest =>
    by_cases h : c1 = ' ' ∧ c2 = ' '
    · simp [collapseSpaces, h, h.1]
    · simp [collapseSpaces, h]

theorem hasTriple_tail {c : Char} {l : List Char} (h : hasTriple (c :: l) = false) :
    hasTriple l = false := by
  match l with
  | [] => rfl
  | [d] => rfl
  | d :: e :: rest =>
    rw [hasTriple, Bool.or_eq_false_iff] at h
    exact h.2

theorem collapse_noDouble_aux :
    ∀ n (l : List Char), l.length ≤ n → hasTriple l = false →
      hasDouble (collapseSpaces l) = false := by
  intro n
  induction n with
  | zero =>
    intro l hl _
    have : l = [] := List.length_eq_zero.mp (Nat.le_zero.mp hl)
    subst this; rfl
  | succ n ih =>
    intro l hl ht
    match l with
    | [] => rfl
    | [c] => rfl
    | c1 :: c2 :: rest =>
      simp only [List.length_cons] at hl
      by_cases h12 : c1 = ' ' ∧ c2 = ' '
      · have hc : collapseSpaces (c1 :: c2 :: rest) = ' ' :: collapseSpaces rest := by
          simp [collapseSpaces, h12]
        rw [hc]
        have htr : hasTriple rest = false := hasTriple_tail (hasTriple_tail ht)
        have hrec : hasDouble (collapseSpaces rest) = false :=
          ih rest (by omega) htr
        match hrest : collapseSpaces rest with
        | [] => rfl
        | d :: X =>
          have hd : rest.head? = some d := by
            rw [← collapseSpaces_head?, hrest]; rfl
          match rest, hd with
          | r :: rest', hd =>
            have hdr : d = r := by
              simp only [List.head?] at hd
              exact (Option.some.inj hd).symm
            have hr : (r == ' ') = false := by
              rw [h12.1, h12.2] at ht
              rw [hasTriple, Bool.or_eq_false_iff] at ht
              have := ht.1
              simp only [Bool.and_eq_false_iff] at this
              rcases this with h' | h'
              · rcases h' with h'' | h'' <;> simp at h''
              · exact h'
            rw [hasDouble]
            have h1 : ((' ' == ' ') && (d == ' ')) = false := by
              rw [hdr, hr]; rfl
            rw [h1, Bool.false_or]
            rw [hrest] at hrec
            exact hrec
      · have hc : collapseSpaces (c1 :: c2 :: rest) = c1 :: collapseSpaces (c2 :: rest) := by
          simp [collapseSpaces, h12]
        rw [hc]
        have ht2 : hasTriple (c2 :: rest) = false := hasTriple_tail ht
        have hrec : hasDouble (collapseSpaces (c2 :: rest)) = false :=
          ih (c2 :: rest) (by simp; omega) ht2
        have hd : (collapseSpaces (c2 :: rest)).head? = some c2 := by
          rw [collapseSpaces_head?]; rfl
        match hrest : collapseSpaces (c2 :: rest) with
        | [] => rw [hrest] at hd; simp at hd
        | d :: X =>
          have hdc : d = c2 := by
            rw [hrest] at hd
            simp only [List.head?] at hd
            exact Option.some.inj hd
          rw [hasDouble]
          have h1 : ((c1 == ' ') && (d == ' ')) = false := by
            rw [hdc]
            rw [Bool.and_eq_false_iff]
            by_cases hc1 : c1 = ' '
            · right
              have : ¬ c2 = ' ' := fun hc2 => h12 ⟨hc1, hc2⟩
              simp [this]
            · left; simp [hc1]
          rw [h1, Bool.false_or]
          rw [hrest] at hrec
          exact hrec

theorem splitLastComma_of_not_mem {l : List Char} (h : ',' ∉ l) :
    splitLastComma l = none := by
  induction l with
  | nil => rfl
  | cons c cs ih =>
    have hc : ¬ c = ',' := fun e => h (e ▸ List.mem_cons_self c cs)
    have hcs : ',' ∉ cs := fun m => h (List.mem_cons_of_mem _ m)
    rw [splitLastComma, ih hcs]
    simp [hc]

theorem not_mem_of_splitLastComma_none {l : List Char} (h : splitLastComma l = none) :
    ',' ∉ l := by
  induction l with
  | nil => simp
  | cons c cs ih =>
    rw [splitLastComma] at h
    cases hcs : splitLastComma cs with
    | some p => rw [hcs] at h; simp at h
    | none =>
      rw [hcs] at h
      by_cases hc : c = ','
      · simp [hc] at h
      · intro hm
        rcases List.mem_cons.mp hm with he | hm'
        · exact hc he.symm
        · exact ih hcs hm'

theorem splitLastComma_append {a b : List Char} (h : ',' ∉ b) :
    splitLastComma (a ++ ',' :: b) = some (a, b) := by
  induction a with
  | nil => simp [splitLastComma, splitLastComma_of_not_mem h]
  | cons x xs ih =>
    rw [List.cons_append, splitLastComma, ih]

theorem splitLastComma_eq_some {l : List Char} {p : List Char × List Char}
    (h : splitLastComma l = some p) : l = p.1 ++ ',' :: p.2 ∧ ',' ∉ p.2 := by
  induction l generalizing p with
  | nil => simp [splitLastComma] at h
  | cons c cs ih =>
    rw [splitLastComma] at h
    cases hcs : splitLastComma cs with
    | some q =>
      rw [hcs] at h
      have hp : p = (c :: q.1, q.2) := (Option.some.inj h).symm
      obtain ⟨h1, h2⟩ := ih hcs
      subst hp
      exact ⟨by simp [← h1], h2⟩
    | none =>
      rw [hcs] at h
      by_cases hc : c = ','
      · rw [if_pos hc] at h
        have hp : p = ([], cs) := (Option.some.inj h).symm
        subst hp
        exact ⟨by simp [hc], not_mem_of_splitLastComma_none hcs⟩
      · rw [if_neg hc] at h
        simp at h

theorem termSuffix_decomp {a w : List Char} (hw : ',' ∉ w) :
    termSuffix (a ++ ',' :: ' ' :: (w ++ " Term".toList)) = (a, w) := by
  have hb : ',' ∉ (' ' :: (w ++ " Term".toList)) := by
    intro hm
    rcases List.mem_cons.mp hm with he | hm'
    · simp at he
    · rcases List.mem_append.mp hm' with h' | h'
      · exact hw h'
      · revert h'; decide
  have hsplit : splitLastComma (a ++ ',' :: ' ' :: (w ++ " Term".toList)) =
      some (a, ' ' :: (w ++ " Term".toList)) := splitLastComma_append hb
  rw [termSuffix, hsplit]
  have hlen : (' ' :: (w ++ " Term".toList)).length = w.length + 6 := by
    simp only [List.length_cons, List.length_append]
    have h5 : (" Term".toList).length = 5 := rfl
    omega
  have hdrop1 : (' ' :: (w ++ " Term".toList)).drop 1 = w ++ " Term".toList := rfl
  have hcond : (' ' :: (w ++ " Term".toList)).length ≥ 6 ∧
      (' ' :: (w ++ " Term".toList)).head? = some ' ' ∧
      ((' ' :: (w ++ " Term".toList)).drop 1).drop
        ((' ' :: (w ++ " Term".toList)).length - 6) = " Term".toList := by
    refine ⟨by omega, rfl, ?_⟩
    rw [hdrop1, hlen]
    simp only [Nat.add_sub_cancel]
    exact List.drop_left w _
  dsimp only
  rw [if_pos hcond]
  rw [hdrop1, hlen]
  simp only [Nat.add_sub_cancel]
  rw [List.take_left]

theorem termSuffix_no_decomp {s : List Char}
    (h : ¬ ∃ a w, ',' ∉ w ∧ s = a ++ ',' :: ' ' :: (w ++ " Term".toList)) :
    termSuffix s = (s, "Full".toList) := by
  rw [termSuffix]
  cases hs : splitLastComma s with
  | none => rfl
  | some p =>
    obtain ⟨p1, p2⟩ := p
    obtain ⟨hl, hb⟩ := splitLastComma_eq_some hs
    simp only at hl hb
    by_cases hcond : p2.length ≥ 6 ∧ p2.head? = some ' ' ∧
        (p2.drop 1).drop (p2.length - 6) = " Term".toList
    · exfalso
      apply h
      obtain ⟨h6, hh, hdrop⟩ := hcond
      obtain ⟨c0, tail, hp2⟩ : ∃ c0 tail, p2 = c0 :: tail := by
        cases hq : p2 with
        | nil => rw [hq] at hh; simp at hh
        | cons c0 tail => exact ⟨c0, tail, rfl⟩
      have hc0 : c0 = ' ' := by
        rw [hp2] at hh
        simp only [List.head?] at hh
        exact Option.some.inj hh
      rw [hp2, hc0] at h6 hdrop hb hl
      simp only [List.length_cons, List.drop_succ_cons, List.drop_zero] at h6 hdrop
      have htail : tail = tail.take (tail.length - 5) ++ tail.drop (tail.length - 5) :=
        (List.take_append_drop _ _).symm
      have hdrop' : tail.drop (tail.length - 5) = " Term".toList := by
        have he : tail.length + 1 - 6 = tail.length - 5 := by omega
        rw [← he]
        exact hdrop
      refine ⟨p1, tail.take (tail.length - 5), ?_, ?_⟩
      · intro hm
        exact hb (List.mem_cons_of_mem _ (List.mem_of_mem_take hm))
      · rw [hl]
        have hx : tail = tail.take (tail.length - 5) ++ " Term".toList := by
          rw [← hdrop']
          exact htail
        rw [← hx]
    · dsimp only
      rw [if_neg hcond]

theorem mem_firstSeen_aux {α : Type} [DecidableEq α] :
    ∀ n (l : List α), l.length ≤ n → ∀ a, (a ∈ firstSeen l ↔ a ∈ l) := by
  intro n
  induction n with
  | zero =>
    intro l hl a
    have : l = [] := List.length_eq_zero.mp (Nat.le_zero.mp hl)
    subst this
    rw [firstSeen_nil]
  | succ n ih =>
    intro l hl a
    match l with
    | [] => rw [firstSeen_nil]
    | x :: xs =>
      simp only [List.length_cons] at hl
      have ihf := ih (xs.filter (fun y => y ≠ x))
        (le_trans (List.length_filter_le _ _) (by omega)) a
      rw [firstSeen_cons]
      constructor
      · intro h
        rcases List.mem_cons.mp h with he | hm
        · exact he ▸ List.mem_cons_self _ _
        · exact List.mem_cons_of_mem _ (List.mem_of_mem_filter (ihf.mp hm))
      · intro h
        rcases List.mem_cons.mp h with he | hm
        · exact he ▸ List.mem_cons_self _ _
        · by_cases hax : a = x
          · exact hax ▸ List.mem_cons_self _ _
          · refine List.mem_cons_of_mem _ (ihf.mpr ?_)
            rw [List.mem_filter]
            exact ⟨hm, by simp [hax]⟩

theorem mem_firstSeen {α : Type} [DecidableEq α] (l : List α) (a : α) :
    a ∈ firstSeen l ↔ a ∈ l :=
  mem_firstSeen_aux l.length l (le_refl _) a

theorem firstSeen_nodup_aux {α : Type} [DecidableEq α] :
    ∀ n (l : List α), l.length ≤ n → (firstSeen l).Nodup := by
  intro n
  induction n with
  | zero =>
    intro l hl
    have : l = [] := List.length_eq_zero.mp (Nat.le_zero.mp hl)
    subst this
    rw [firstSeen_nil]
    exact List.nodup_nil
  | succ n ih =>
    intro l hl
    match l with
    | [] => rw [firstSeen_nil]; exact List.nodup_nil
    | x :: xs =>
      simp only [List.length_cons] at hl
      rw [firstSeen_cons]
      refine List.nodup_cons.mpr ⟨?_, ih _ (le_trans (List.length_filter_le _ _) (by omega))⟩
      intro hx
      have hm := (mem_firstSeen _ _).mp hx
      rw [List.mem_filter] at hm
      simp at hm

theorem firstSeen_nodup {α : Type} [DecidableEq α] (l : List α) : (firstSeen l).Nodup :=
  firstSeen_nodup_aux l.length l (le_refl _)

theorem firstSeen_append_cons {α : Type} [DecidableEq α] :
    ∀ n (A B : List α) (v : α), A.length ≤ n → v ∉ A →
      ∃ C, firstSeen (A ++ v :: B) = firstSeen A ++ v :: C := by
  intro n
  induction n with
  | zero =>
    intro A B v hA _
    have hA0 : A = [] := List.length_eq_zero.mp (Nat.le_zero.mp hA)
    subst hA0
    exact ⟨firstSeen (B.filter (fun y => y ≠ v)),
      by rw [List.nil_append, firstSeen_cons, firstSeen_nil]; rfl⟩
  | succ n ih =>
    intro A B v hA hv
    match A with
    | [] =>
      exact ⟨firstSeen (B.filter (fun y => y ≠ v)),
        by rw [List.nil_append, firstSeen_cons, firstSeen_nil]; rfl⟩
    | x :: A2 =>
      have hvx : v ≠ x := fun e => hv (e ▸ List.mem_cons_self x A2)
      have hvA2 : v ∉ A2 := fun m => hv (List.mem_cons_of_mem _ m)
      rw [List.cons_append, firstSeen_cons, List.filter_append]
      have hvf : (v :: B).filter (fun y => decide (y ≠ x)) =
          v :: B.filter (fun y => decide (y ≠ x)) := by
        simp [hvx]
      rw [hvf]
      obtain ⟨C, hC⟩ := ih (A2.filter (fun y => decide (y ≠ x)))
        (B.filter (fun y => decide (y ≠ x))) v
        (le_trans (List.length_filter_le _ _) (by simpa using hA))
        (fun m => hvA2 (List.mem_of_mem_filter m))
      refine ⟨C, ?_⟩
      rw [hC, firstSeen_cons]
      simp [List.cons_append]

theorem indexOf_append_cons_self {α : Type} [DecidableEq α] {v : α} {xs : List α}
    (h : v ∉ xs) (c : List α) : (xs ++ v :: c).indexOf v = xs.length := by
  induction xs with
  | nil => simp
  | cons x xs ih =>
    have hvx : v ≠ x := fun e => h (e ▸ List.mem_cons_self x xs)
    have hvxs : v ∉ xs := fun m => h (List.mem_cons_of_mem _ m)
    rw [List.cons_append, List.indexOf_cons_ne _ (Ne.symm hvx), ih hvxs, List.length_cons]

theorem factorizeCode_inj {α : Type} [DecidableEq α] {l : List α} {x y : α}
    (hx : x ∈ l) (hy : y ∈ l) : factorizeCode l x = factorizeCode l y ↔ x = y :=
  List.indexOf_inj ((mem_firstSeen l x).mpr hx) ((mem_firstSeen l y).mpr hy)

theorem factorizeCode_first_seen {α : Type} [DecidableEq α] {A B : List α} {v : α}
    (hv : v ∉ A) : factorizeCode (A ++ v :: B) v = (firstSeen A).length := by
  obtain ⟨C, hC⟩ := firstSeen_append_cons A.length A B v (le_refl _) hv
  unfold factorizeCode
  rw [hC]
  exact indexOf_append_cons_self (fun m => hv ((mem_firstSeen A v).mp m)) C

theorem char_toNat_inj {a b : Char} (h : a.toNat = b.toNat) : a = b :=
  Char.ext (UInt32.eq_of_val_eq (Fin.ext h))

theorem listLeb_cons_iff {x y : Char} {as bs : List Char} :
    listLeb (x :: as) (y :: bs) = true ↔
      x.toNat < y.toNat ∨ (x = y ∧ listLeb as bs = true) := by
  rw [listLeb]
  by_cases h1 : x.toNat < y.toNat
  · simp [h1]
  · rw [if_neg h1]
    by_cases h2 : y.toNat < x.toNat
    · rw [if_pos h2]
      constructor
      · intro h; exact absurd h (by simp)
      · intro h
        rcases h with h | ⟨he, _⟩
        · omega
        · subst he; omega
    · rw [if_neg h2]
      have hxy : x = y := char_toNat_inj (by omega)
      subst hxy
      constructor
      · intro h; exact Or.inr ⟨rfl, h⟩
      · intro h
        rcases h with h | ⟨_, h⟩
        · omega
        · exact h

theorem listLeb_total : ∀ a b : List Char, listLeb a b = true ∨ listLeb b a = true := by
  intro a
  induction a with
  | nil => intro b; exact Or.inl rfl
  | cons x as ih =>
    intro b
    match b with
    | [] => exact Or.inr rfl
    | y :: bs =>
      rcases Nat.lt_trichotomy x.toNat y.toNat with h | h | h
      · exact Or.inl (listLeb_cons_iff.mpr (Or.inl h))
      · have hxy : x = y := char_toNat_inj h
        subst hxy
        rcases ih bs with h' | h'
        · exact Or.inl (listLeb_cons_iff.mpr (Or.inr ⟨rfl, h'⟩))
        · exact Or.inr (listLeb_cons_iff.mpr (Or.inr ⟨rfl, h'⟩))
      · exact Or.inr (listLeb_cons_iff.mpr (Or.inl h))

theorem listLeb_trans : ∀ a b c : List Char,
    listLeb a b = true → listLeb b c = true → listLeb a c = true := by
  intro a
  induction a with
  | nil => intro b c _ _; rfl
  | cons x as ih =>
    intro b c hab hbc
    match b with
    | [] => rw [listLeb] at hab; exact absurd hab (by simp)
    | y :: bs =>
      match c with
      | [] => rw [listLeb] at hbc; exact absurd hbc (by simp)
      | z :: cs =>
        rcases listLeb_cons_iff.mp hab with h1 | ⟨he1, h1⟩
        · rcases listLeb_cons_iff.mp hbc with h2 | ⟨he2, _⟩
          · exact listLeb_cons_iff.mpr (Or.inl (by omega))
          · subst he2; exact listLeb_cons_iff.mpr (Or.inl h1)
        · subst he1
          rcases listLeb_cons_iff.mp hbc with h2 | ⟨he2, h2⟩
          · exact listLeb_cons_iff.mpr (Or.inl h2)
          · subst he2
            exact listLeb_cons_iff.mpr (Or.inr ⟨rfl, ih _ _ h1 h2⟩)

theorem listLeb_antisymm : ∀ a b : List Char,
    listLeb a b = true → listLeb b a = true → a = b := by
  intro a
  induction a with
  | nil =>
    intro b _ hba
    match b with
    | [] => rfl
    | y :: bs => rw [listLeb] at hba; exact absurd hba (by simp)
  | cons x as ih =>
    intro b hab hba
    match b with
    | [] => rw [listLeb] at hab; exact absurd hab (by simp)
    | y :: bs =>
      rcases listLeb_cons_iff.mp hab with h1 | ⟨he1, h1⟩
      · rcases listLeb_cons_iff.mp hba with h2 | ⟨he2, _⟩
        · omega
        · subst he2; omega
      · subst he1
        rcases listLeb_cons_iff.mp hba with h2 | ⟨_, h2⟩
        · omega
        · rw [ih _ h1 h2]

theorem strLeb_total (a b : String) : strLeb a b = true ∨ strLeb b a = true :=
  listLeb_total a.toList b.toList

theorem strLeb_trans {a b c : String} (hab : strLeb a b = true) (hbc : strLeb b c = true) :
    strLeb a c = true :=
  listLeb_trans a.toList b.toList c.toList hab hbc

theorem strLeb_antisymm {a b : String} (hab : strLeb a b = true) (hba : strLeb b a = true) :
    a = b := by
  have h := listLeb_antisymm a.toList b.toList hab hba
  cases a with
  | mk da =>
    cases b with
    | mk db =>
      have : da = db := h
      rw [this]

instance : IsTotal String (fun a b => strLeb a b = true) := ⟨strLeb_total⟩

instance : IsTrans String (fun a b => strLeb a b = true) :=
  ⟨fun _ _ _ => strLeb_trans⟩

theorem categories_sorted (l : List String) :
    (categories l).Sorted (fun a b => strLeb a b = true) :=
  List.sorted_insertionSort _ _

theorem categories_nodup (l : List String) : (categories l).Nodup :=
  (List.perm_insertionSort _ _).nodup_iff.mpr (firstSeen_nodup l)

theorem mem_categories {l : List String} {d : String} : d ∈ categories l ↔ d ∈ l := by
  unfold categories
  rw [List.mem_insertionSort]
  exact mem_firstSeen l d

theorem catCode_lt_length {l : List String} {d : String} (h : d ∈ l) :
    catCode l d < (categories l).length :=
  List.indexOf_lt_length.mpr (mem_categories.mpr h)

theorem mem_range_map_toInt16 {k n : Nat} (h : k < n) :
    toInt16 (k : Int) ∈ (List.range n).map (fun i : Nat => toInt16 (i : Int)) :=
  List.mem_map.mpr ⟨k, List.mem_range.mpr h, rfl⟩

theorem catCode_lt_iff {l : List String} {d e : String} (hd : d ∈ l) (he : e ∈ l) :
    (catCode l d < catCode l e ↔ strLeb d e = true ∧ d ≠ e) := by
  have hdc : d ∈ categories l := mem_categories.mpr hd
  have hec : e ∈ categories l := mem_categories.mpr he
  have hdl : catCode l d < (categories l).length := List.indexOf_lt_length.mpr hdc
  have hel : catCode l e < (categories l).length := List.indexOf_lt_length.mpr hec
  have hgd : (categories l).get ⟨catCode l d, hdl⟩ = d := List.indexOf_get hdl
  have hge : (categories l).get ⟨catCode l e, hel⟩ = e := List.indexOf_get hel
  constructor
  · intro hlt
    have hle : strLeb d e = true := by
      have := (categories_sorted l).rel_get_of_lt
        (a := ⟨catCode l d, hdl⟩) (b := ⟨catCode l e, hel⟩) hlt
      rwa [hgd, hge] at this
    refine ⟨hle, fun he' => ?_⟩
    have : catCode l d = catCode l e := by unfold catCode; rw [he']
    omega
  · intro hlt
    obtain ⟨hle, hne⟩ := hlt
    rcases Nat.lt_trichotomy (catCode l d) (catCode l e) with h' | h' | h'
    · exact h'
    · exfalso
      apply hne
      rw [← hgd, ← hge]
      congr 1
      exact Fin.ext h'
    · exfalso
      have hlee : strLeb e d = true := by
        have := (categories_sorted l).rel_get_of_lt
          (a := ⟨catCode l e, hel⟩) (b := ⟨catCode l d, hdl⟩) h'
        rwa [hgd, hge] at this
      exact hne (strLeb_antisymm hle hlee)

theorem catCode_get (l : List String) (k : Nat) (hk : k < (categories l).length) :
    catCode l ((categories l).get ⟨k, hk⟩) = k := by
  unfold catCode
  exact List.get_indexOf (categories_nodup l) ⟨k, hk⟩

theorem bind_ok_iff {ε α β : Type} (e : Except ε α) (f : α → Except ε β) (b : β) :
    (e >>= f) = .ok b ↔ ∃ a, e = .ok a ∧ f a = .ok b := by
  cases e with
  | error e => simp [Bind.bind, Except.bind]
  | ok a => simp [Bind.bind, Except.bind]

theorem pure_eq_ok {ε α : Type} (a : α) : (pure a : Except ε α) = .ok a := rfl

theorem mapME_ok_length {α β ε : Type} {f : α → Except ε β} :
    ∀ {l : List α} {out : List β}, mapME f l = .ok out → out.length = l.length := by
  intro l
  induction l with
  | nil => intro out h; rw [mapME] at h; cases h; rfl
  | cons a l ih =>
    intro out h
    rw [mapME] at h
    rw [bind_ok_iff] at h
    obtain ⟨b, hb, h⟩ := h
    rw [bind_ok_iff] at h
    obtain ⟨bs, hbs, h⟩ := h
    rw [pure_eq_ok] at h
    cases h
    simp [ih hbs]

theorem mapME_ok_forall {α β ε : Type} {f : α → Except ε β} :
    ∀ {l : List α} {out : List β}, mapME f l = .ok out →
      ∀ a ∈ l, ∃ b ∈ out, f a = .ok b := by
  intro l
  induction l with
  | nil => intro out _ a ha; simp at ha
  | cons x l ih =>
    intro out h a ha
    rw [mapME] at h
    rw [bind_ok_iff] at h
    obtain ⟨b, hb, h⟩ := h
    rw [bind_ok_iff] at h
    obtain ⟨bs, hbs, h⟩ := h
    rw [pure_eq_ok] at h
    cases h
    rcases List.mem_cons.mp ha with he | hm
    · exact ⟨b, List.mem_cons_self _ _, he ▸ hb⟩
    · obtain ⟨c, hc, hfc⟩ := ih hbs a hm
      exact ⟨c, List.mem_cons_of_mem _ hc, hfc⟩

theorem mapME_ok_mem {α β ε : Type} {f : α → Except ε β} :
    ∀ {l : List α} {out : List β}, mapME f l = .ok out →
      ∀ b ∈ out, ∃ a ∈ l, f a = .ok b := by
  intro l
  induction l with
  | nil =>
    intro out h b hb
    rw [mapME] at h
    cases h
    simp at hb
  | cons x l ih =>
    intro out h b hb
    rw [mapME] at h
    rw [bind_ok_iff] at h
    obtain ⟨c, hc, h⟩ := h
    rw [bind_ok_iff] at h
    obtain ⟨bs, hbs, h⟩ := h
    rw [pure_eq_ok] at h
    cases h
    rcases List.mem_cons.mp hb with he | hm
    · exact ⟨x, List.mem_cons_self _ _, he ▸ hc⟩
    · obtain ⟨a, ha, hfa⟩ := ih hbs b hm
      exact ⟨a, List.mem_cons_of_mem _ ha, hfa⟩

theorem mapME_ok_get {α β ε : Type} {f : α → Except ε β} :
    ∀ {l : List α} {out : List β}, mapME f l = .ok out →
      ∀ i (hi : i < l.length) (ho : i < out.length),
        f (l.get ⟨i, hi⟩) = .ok (out.get ⟨i, ho⟩) := by
  intro l
  induction l with
  | nil => intro out _ i hi; simp at hi
  | cons x l ih =>
    intro out h i hi ho
    rw [mapME] at h
    rw [bind_ok_iff] at h
    obtain ⟨b, hb, h⟩ := h
    rw [bind_ok_iff] at h
    obtain ⟨bs, hbs, h⟩ := h
    rw [pure_eq_ok] at h
    cases h
    match i with
    | 0 => exact hb
    | i + 1 =>
      simp only [List.length_cons] at hi ho
      exact ih hbs i (by omega) (by simpa using ho)

theorem mem_sortByTriple {β : Type} (key : β → Int × Int × Int) (l : List β) (x : β) :
    x ∈ sortByTriple key l ↔ x ∈ l := by
  unfold sortByTriple
  exact List.mem_insertionSort _

theorem mem_sortByKey {β : Type} (key : β → Int) (l : List β) (x : β) :
    x ∈ sortByKey key l ↔ x ∈ l := by
  unfold sortByKey
  exact List.mem_insertionSort _

theorem mem_of_mem_enum {α : Type} {l : List α} {x : Nat × α} (h : x ∈ l.enum) :
    x.2 ∈ l := by
  have hall : ∀ y ∈ l.enum, y.2 ∈ l :=
    List.forall_mem_enum.mpr (fun i hi => List.getElem_mem hi)
  exact hall x h

theorem enum_map_val {α β : Type} (l : List α) (g : Nat → β) :
    l.enum.map (fun x => g x.1) = (List.range l.length).map g := by
  have h1 : (fun x : Nat × α => g x.1) = g ∘ Prod.fst := rfl
  rw [h1, ← List.map_map, List.enum_map_fst]

theorem updateColumns_ok {cols : List MarkCol} {mcols : List MeltCol}
    (h : updateColumns cols = .ok mcols) : mcols = updateColumnsOk cols := by
  unfold updateColumns at h
  by_cases hb : cols.any (fun c => c.candidate = "Write-in") = true
  · rw [if_pos hb] at h
    exact (Except.ok.inj h).symm
  · rw [if_neg hb] at h
    simp at h

theorem sccMelt_origin {cols : List MarkCol} {rows : List (Int × SccRow)} {m : MeltRow}
    (h : m ∈ sccMelt cols rows) :
    ∃ col ∈ updateColumnsOk cols, m.contest = col.contest ∧ m.candidate = col.candidate := by
  unfold sccMelt at h
  rw [List.mem_flatMap] at h
  obtain ⟨ic, hic, hm⟩ := h
  rw [List.mem_filterMap] at hm
  obtain ⟨r, _, hmr⟩ := hm
  cases ho : (keptMarks cols r.2).getD ic.1 none with
  | none => rw [ho] at hmr; simp at hmr
  | some rank =>
    rw [ho] at hmr
    simp only [Option.map_some'] at hmr
    have hme := Option.some.inj hmr
    refine ⟨ic.2, mem_of_mem_enum hic, ?_, ?_⟩
    · rw [← hme]
    · rw [← hme]

theorem officeId_mem_officesFrom (tuples : List Office4) (p : Office4 × Nat)
    (hp : p ∈ tuples.zip (factorizeCodes tuples)) :
    toInt16 (p.2 : Int) ∈ (officesFrom tuples).map (fun o => o.officeId) := by
  unfold officesFrom
  rw [List.map_map]
  exact List.mem_map.mpr ⟨p, (mem_firstSeen _ _).mpr hp, rfl⟩

theorem checkImprinted_ok {rows : List (Int × RawBallotIds)}
    {ids2 : List (Int × BallotIds2)} (h : checkImprinted rows = .ok ids2) :
    rows.all (fun r => imprintedOkRow r.2) = true ∧
      ids2 = rows.map (fun r => (r.1, dropImprinted r.2)) := by
  unfold checkImprinted at h
  by_cases hb : rows.all (fun r => imprintedOkRow r.2) = true
  · rw [if_pos hb] at h
    exact ⟨hb, (Except.ok.inj h).symm⟩
  · rw [if_neg hb] at h
    simp at h

theorem sccCheckRest_ok {rows : List (Int × BallotIds2)} {cvr : List CvrRecord}
    (h : sccCheckRest rows = .ok cvr) :
    rows.all (fun r => ballotTypeOkRow r.2) = true ∧
      rows.all (fun r => precinctOkRow r.2) = true ∧
      cvr = rows.map buildCvr := by
  unfold sccCheckRest at h
  by_cases h1 : rows.all
      (fun r => (strToNat? r.2.tabulator).isSome && (strToNat? r.2.batch).isSome) = true
  case neg => rw [if_pos h1] at h; simp at h
  rw [if_neg (not_not_intro h1)] at h
  by_cases h2 : rows.all (fun r => ballotTypeOkRow r.2) = true
  case neg => rw [if_pos h2] at h; simp at h
  rw [if_neg (not_not_intro h2)] at h
  by_cases h3 : rows.all (fun r => precinctOkRow r.2) = true
  case neg => rw [if_pos h3] at h; simp at h
  rw [if_neg (not_not_intro h3)] at h
  by_cases h4 : rows.all (fun r => (strToNat? r.2.record).isSome) = true
  case neg => rw [if_pos h4] at h; simp at h
  rw [if_neg (not_not_intro h4)] at h
  exact ⟨h2, h3, (Except.ok.inj h).symm⟩

theorem sccPreprocess_ok_parts {ts : List Matcher} {raw : SccRaw} {t : SccTables}
    (h : sccPreprocess ts raw = .ok t) :
    ∃ ids2 cvr co,
      checkImprinted (sccIdPairs raw) = .ok ids2 ∧
      sccCheckRest ids2 = .ok cvr ∧
      sccSplitContest ts (sccContestCats raw) = .ok co ∧
      t = { cvr := cvr, contests := co.1, offices := co.2
            candidates :=
              sccSplitCandidate (categories ((updateColumnsOk raw.cols).map (fun c => c.candidate)))
            marks := sccMarks ((updateColumnsOk raw.cols).map (fun c => c.contest))
                      ((updateColumnsOk raw.cols).map (fun c => c.candidate))
                      (sccMelt raw.cols (raw.rows.map (fun r => (toInt32 r.cvrNum, r)))) } := by
  unfold sccPreprocess at h
  rw [bind_ok_iff] at h
  obtain ⟨ids2, h1, h⟩ := h
  rw [bind_ok_iff] at h
  obtain ⟨cvr, h2, h⟩ := h
  rw [bind_ok_iff] at h
  obtain ⟨mcols, hm, h⟩ := h
  have hmeq := updateColumns_ok hm
  subst hmeq
  rw [bind_ok_iff] at h
  obtain ⟨co, h3, h⟩ := h
  rw [pure_eq_ok] at h
  exact ⟨ids2, cvr, co, h1, h2, h3, (Except.ok.inj h).symm⟩

theorem sccSplitContest_ok {ts : List Matcher} {cats : List String}
    {co : List ContestRow × List OfficeRow} (h : sccSplitContest ts cats = .ok co) :
    ∃ parsed,
      mapME (fun d => match standardize ts d with
        | some r => Except.ok r
        | none => Except.error (IngestErr.unrecognizedContest d)) cats = .ok parsed ∧
      co.1 = ((parsed.zip (factorizeCodes (parsed.map office4Of))).enum.map (fun x =>
        ({ contestId := toInt16 (x.1 : Int), term := x.2.1.term
           voteFor := toInt8 (x.2.1.voteFor : Int), ranked := false
           officeId := toInt16 (x.2.2 : Int) } : ContestRow))) ∧
      co.2 = officesFrom (parsed.map office4Of) := by
  unfold sccSplitContest at h
  rw [bind_ok_iff] at h
  obtain ⟨parsed, h1, h⟩ := h
  rw [pure_eq_ok] at h
  have he := (Except.ok.inj h).symm
  exact ⟨parsed, h1, by rw [he], by rw [he]⟩

theorem mapME_std_ok_isSome {ts : List Matcher} {cats : List String} {parsed : List StdContest}
    (h : mapME (fun d => match standardize ts d with
      | some r => Except.ok r
      | none => Except.error (IngestErr.unrecognizedContest d)) cats = .ok parsed) :
    ∀ d ∈ cats, (standardize ts d).isSome = true := by
  intro d hd
  obtain ⟨b, _, hfb⟩ := mapME_ok_forall h d hd
  cases hs : standardize ts d with
  | some r => rfl
  | none => rw [hs] at hfb; simp at hfb

theorem sccMarks_mem {descs cands : List String} {melted : List MeltRow} {m : MarkRow}
    (h : m ∈ sccMarks descs cands melted) :
    ∃ m0 ∈ melted,
      m = { cvrId := m0.cvrId, contestId := toInt16 (catCode descs m0.contest : Int)
            rank := m0.rank, candidateId := toInt16 (catCode cands m0.candidate : Int) } := by
  unfold sccMarks at h
  rw [mem_sortByTriple, List.mem_map] at h
  obtain ⟨m0, hm0, he⟩ := h
  exact ⟨m0, hm0, he.symm⟩

theorem sfReadCvrRows_fst (files : List SfFile) :
    (sfReadCvrRows files).map Prod.fst = List.range (sfCardSeq files).length := by
  have h1 : (sfReadCvrRows files).map Prod.fst =
      (sfCardSeq files).enum.map (fun x => x.1) := by
    unfold sfReadCvrRows
    rw [List.map_map]
    rfl
  have h2 : (sfCardSeq files).enum.map (fun x => x.1) =
      List.range (sfCardSeq files).length := by
    simp
  exact h1.trans h2

theorem sfCvrRowIds_map (l : List (Nat × String)) :
    (l.map (fun x => ({ cvrId := toInt32 (x.1 : Int), filename := x.2 } : SfCvrRow))).map
        (fun c => c.cvrId) =
      (l.map Prod.fst).map (fun n : Nat => toInt32 (n : Int)) := by
  induction l with
  | nil => rfl
  | cons a l ih =>
    simp only [List.map_cons]
    rw [ih]

theorem sccCvrIds_map (l : List SccRow) :
    ((((l.map (fun r => (toInt32 r.cvrNum, r))).map (fun r => (r.1, r.2.ids))).map
        (fun r => (r.1, dropImprinted r.2))).map buildCvr).map (fun c => c.cvrId) =
      l.map (fun r => toInt32 r.cvrNum) := by
  induction l with
  | nil => rfl
  | cons a l ih =>
    simp only [List.map_cons]
    rw [ih]
    rfl

theorem sfPreprocess_ok_parts {ts : List Matcher} {raw : SfRaw} {t : SfTables}
    (h : sfPreprocess ts raw = .ok t) :
    ∃ parsed,
      mapME (fun r => match sfStandardize ts r.description with
        | some o => Except.ok (r, o)
        | none => Except.error (IngestErr.unrecognizedContest r.description))
        (sortByKey (fun c => c.contestId) (raw.contestMan.map sfCastContest)) = .ok parsed ∧
      t.contests = ((parsed.zip (factorizeCodes (parsed.map (fun p => p.2)))).map (fun x =>
        ({ contestId := x.1.1.contestId, externalId := x.1.1.externalId
           districtId := x.1.1.districtId, voteFor := x.1.1.voteFor
           numOfRanks := x.1.1.numOfRanks, disabled := x.1.1.disabled
           ranked := x.1.1.ranked, officeId := toInt16 (x.2 : Int) } : SfContestRow))) ∧
      t.offices = officesFrom (parsed.map (fun p => p.2)) := by
  unfold sfPreprocess at h
  rw [bind_ok_iff] at h
  obtain ⟨parsed, h1, h⟩ := h
  rw [pure_eq_ok] at h
  have he := (Except.ok.inj h).symm
  exact ⟨parsed, h1, by rw [he], by rw [he]⟩

theorem transform_eq_some {s : String} {ts : List Matcher} {o : Office4}
    (h : transform s ts = some o) : ∃ t ∈ ts, t s = some o := by
  induction ts with
  | nil => simp [transform] at h
  | cons t rest ih =>
    rw [transform] at h
    cases hts : t s with
    | some o2 =>
      simp only [hts] at h
      exact ⟨t, List.mem_cons_self _ _, hts.trans h⟩
    | none =>
      simp only [hts] at h
      obtain ⟨t2, ht2, h2⟩ := ih h
      exact ⟨t2, List.mem_cons_of_mem _ ht2, h2⟩

theorem enum_build_ids {α β : Type} (proj : β → Int) (F : Nat × α → β)
    (hF : ∀ x, proj (F x) = toInt16 (x.1 : Int)) :
    ∀ (l : List α) (n : Nat),
      ((l.enumFrom n).map F).map proj =
        (List.range' n l.length).map (fun i : Nat => toInt16 (i : Int)) := by
  intro l
  induction l with
  | nil => intro n; rfl
  | cons a l ih =>
    intro n
    simp only [List.enumFrom, List.map_cons, List.length_cons, List.range']
    rw [hF, ih]

theorem enum_build_ids0 {α β : Type} (proj : β → Int) (F : Nat × α → β)
    (hF : ∀ x, proj (F x) = toInt16 (x.1 : Int)) (l : List α) :
    ((l.enum.map F).map proj =
      (List.range l.length).map (fun i : Nat => toInt16 (i : Int))) := by
  rw [List.range_eq_range']
  exact enum_build_ids proj F hF l 0

/-! ### Claim theorems -/

/-- C2: on imprinted-id validation of the per-ballot identity fields,
validation succeeds if and only if for every ballot the raw imprinted id is
empty or equals the tabulator, batch and record ids joined by dashes; on
success the output is exactly the input with the raw `ImprintedId` column
dropped, and any other value makes the step fail with the fatal
`imprintedMismatch` assertion error. -/
theorem c2_imprinted_validation (rows : List (Int × RawBallotIds)) :
    (checkImprinted rows = .ok (rows.map (fun r => (r.1, dropImprinted r.2))) ↔
      ∀ r ∈ rows, r.2.imprinted = "" ∨
        r.2.imprinted = r.2.tabulator ++ "-" ++ r.2.batch ++ "-" ++ r.2.record) ∧
    ((¬ ∀ r ∈ rows, r.2.imprinted = "" ∨
        r.2.imprinted = r.2.tabulator ++ "-" ++ r.2.batch ++ "-" ++ r.2.record) →
      checkImprinted rows = .error .imprintedMismatch) := by
  have hall : rows.all (fun r => imprintedOkRow r.2) = true ↔
      ∀ r ∈ rows, r.2.imprinted = "" ∨
        r.2.imprinted = r.2.tabulator ++ "-" ++ r.2.batch ++ "-" ++ r.2.record := by
    rw [List.all_eq_true]
    constructor
    · intro h r hr; exact (imprintedOkRow_iff r.2).mp (h r hr)
    · intro h r hr; exact (imprintedOkRow_iff r.2).mpr (h r hr)
  constructor
  · constructor
    · intro h
      by_cases hb : rows.all (fun r => imprintedOkRow r.2) = true
      · exact hall.mp hb
      · unfold checkImprinted at h
        rw [if_neg hb] at h
        simp at h
    · intro h
      unfold checkImprinted
      rw [if_pos (hall.mpr h)]
  · intro h
    unfold checkImprinted
    rw [if_neg (fun hb => h (hall.mp hb))]

/-- Witness for C2: a row whose imprinted id is neither empty nor the
dash-joined ids makes the validation fail. -/
theorem c2_witness :
    checkImprinted [((1 : Int), { goodIds with imprinted := "9-9-9" })] =
      .error .imprintedMismatch :=
  (c2_imprinted_validation _).2 (by decide)

/-- C3 counterexample: the single `replace("  ", " ")` pass does not collapse
a run of three spaces to one; `"a   b"` keeps two adjacent spaces, refuting
the claim that no two adjacent spaces remain after step 1 for every input. -/
theorem c3_counterexample : hasDouble (collapseSpaces "a   b".toList) = true := by decide

/-- C3 (amended): step 1 of the standardization pipeline is one left-to-right
pass replacing each non-overlapping pair of adjacent spaces with one space; for
every input with no run of three or more spaces, no two adjacent spaces remain
before the vote-for and term suffixes are parsed. -/
theorem c3_collapse_single_pass (l : List Char) (h : hasTriple l = false) :
    hasDouble (collapseSpaces l) = false :=
  collapse_noDouble_aux l.length l (le_refl _) h

/-- Witness for C3 (amended) on a double-space-free input. -/
theorem c3_witness :
    hasTriple "a  b c".toList = false ∧
      hasDouble (collapseSpaces "a  b c".toList) = false :=
  ⟨by decide, c3_collapse_single_pass _ (by decide)⟩

/-- C5: after the vote-for suffix is stripped, a string of the form
`a ++ ", " ++ w ++ " Term"` (with `w` comma-free) yields term `w` with the
suffix stripped before the transformer chain runs; when no such decomposition
exists the term is `"Full"`; and `"City Council, Short Term"` yields term
`"Short"` through the full `standardize` pipeline. -/
theorem c5_term_suffix :
    (∀ a w : List Char, ',' ∉ w →
      termSuffix (a ++ ',' :: ' ' :: (w ++ " Term".toList)) = (a, w)) ∧
    (∀ s : List Char, (¬ ∃ a w, ',' ∉ w ∧ s = a ++ ',' :: ' ' :: (w ++ " Term".toList)) →
      termSuffix s = (s, "Full".toList)) ∧
    standardize [cityCouncilMatcher] "City Council, Short Term (Vote For=2)" =
      some { level := "city", jurisdiction := "San Jose", office := "City Council"
             district := "San Jose", term := "Short", voteFor := 2 } :=
  ⟨fun _ _ hw => termSuffix_decomp hw, fun _ hs => termSuffix_no_decomp hs, by decide⟩

/-- Witness for C5 at the spec example. -/
theorem c5_witness :
    termSuffix ("City Council".toList ++ ',' :: ' ' :: ("Short".toList ++ " Term".toList)) =
      ("City Council".toList, "Short".toList) :=
  c5_term_suffix.1 _ _ (by decide)

/-- C10: in the document path, every output contest row stems from a manifest
record whose (int8-cast) `NumOfRanks` decides the ranked flag (`ranked` iff
`NumOfRanks > 1`), and ranked contests take `vote_for = NumOfRanks` while
non-ranked contests keep the raw (int8-cast) `VoteFor`. -/
theorem c10_ranked_vote_for (ts : List Matcher) (raw : SfRaw) (t : SfTables)
    (h : sfPreprocess ts raw = .ok t) :
    ∀ c ∈ t.contests, ∃ r ∈ raw.contestMan,
      c.contestId = toInt16 r.id ∧
      (c.ranked = true ↔ 1 < toInt8 r.numOfRanks) ∧
      c.voteFor = (if 1 < toInt8 r.numOfRanks then toInt8 r.numOfRanks else toInt8 r.voteFor) := by
  intro c hc
  unfold sfPreprocess at h
  rw [bind_ok_iff] at h
  obtain ⟨parsed, hparsed, hrest⟩ := h
  rw [pure_eq_ok] at hrest
  have ht := (Except.ok.inj hrest).symm
  rw [ht] at hc
  simp only at hc
  rw [List.mem_map] at hc
  obtain ⟨x, hx, hcx⟩ := hc
  obtain ⟨⟨r0, o⟩, code⟩ := x
  have hmem := (List.of_mem_zip hx).1
  obtain ⟨s, hs, hfs⟩ := mapME_ok_mem hparsed _ hmem
  have hr0 : r0 = s := by
    cases hstd : sfStandardize ts s.description with
    | none => rw [hstd] at hfs; simp at hfs
    | some o2 =>
      rw [hstd] at hfs
      have := Except.ok.inj hfs
      exact (congrArg Prod.fst this).symm
  rw [mem_sortByKey] at hs
  rw [List.mem_map] at hs
  obtain ⟨r, hrmem, hcast⟩ := hs
  refine ⟨r, hrmem, ?_, ?_, ?_⟩
  · rw [← hcx]
    simp only
    rw [hr0, ← hcast]
    rfl
  · rw [← hcx]
    simp only
    rw [hr0, ← hcast]
    unfold sfCastContest
    simp only [decide_eq_true_eq]
  · rw [← hcx]
    simp only
    rw [hr0, ← hcast]
    unfold sfCastContest
    simp only
    by_cases h1 : 1 < toInt8 r.numOfRanks
    · simp [h1]
    · simp [h1]

/-- C8 counterexample: a wide extract whose first column holds 7 in both raw
rows (and which carries a write-in column, so the column drop of
`update_column_index` succeeds) passes every check, and the run hands the
writer a CvrRecord table whose ballot ids are `[7, 7]` — not unique, and taken
from the file rather than assigned in read order. -/
theorem c8_counterexample :
    (sccPreprocess [govMatcher] sccDupRaw).map (fun t => t.cvr.map (fun c => c.cvrId)) =
      .ok [7, 7] ∧ ¬ ([7, 7] : List Int).Nodup :=
  ⟨by decide, by decide⟩

/-- C8 (amended): in the nested-document path, ballot ids are the successive
counter values 0, 1, 2, … assigned in raw read order over the card sequence
(hence unique); in the wide-spreadsheet path, the CvrRecord ballot ids are the
int32-cast values of the raw file's first column in row order, with no
uniqueness check. -/
theorem c8_ballot_ids :
    (∀ files : List SfFile,
      (sfReadCvrRows files).map Prod.fst = List.range (sfCardSeq files).length ∧
      ((sfReadCvrRows files).map Prod.fst).Nodup) ∧
    (∀ (ts : List Matcher) (raw : SfRaw) (t : SfTables), sfPreprocess ts raw = .ok t →
      t.cvr.map (fun c => c.cvrId) =
        (List.range (sfCardSeq raw.files).length).map (fun (i : Nat) => toInt32 (i : Int))) ∧
    (∀ (ts : List Matcher) (raw : SccRaw) (t : SccTables), sccPreprocess ts raw = .ok t →
      t.cvr.map (fun c => c.cvrId) = raw.rows.map (fun r => toInt32 r.cvrNum)) := by
  refine ⟨?_, ?_, ?_⟩
  · intro files
    refine ⟨sfReadCvrRows_fst files, ?_⟩
    rw [sfReadCvrRows_fst files]
    exact List.nodup_range _
  · intro ts raw t h
    unfold sfPreprocess at h
    rw [bind_ok_iff] at h
    obtain ⟨parsed, _, h⟩ := h
    rw [pure_eq_ok] at h
    have hcvr : t.cvr = (sfReadCvrRows raw.files).map
        (fun x => ({ cvrId := toInt32 (x.1 : Int), filename := x.2 } : SfCvrRow)) :=
      congrArg SfTables.cvr (Except.ok.inj h).symm
    rw [hcvr, sfCvrRowIds_map, sfReadCvrRows_fst]
  · intro ts raw t h
    obtain ⟨ids2, cvr, co, h1, h2, h3, ht⟩ := sccPreprocess_ok_parts h
    obtain ⟨_, hid⟩ := checkImprinted_ok h1
    obtain ⟨_, _, hcvr⟩ := sccCheckRest_ok h2
    rw [ht]
    simp only
    rw [hcvr, hid]
    unfold sccIdPairs
    exact sccCvrIds_map raw.rows

/-- Witness for C8 (amended) at the single-ballot wide fixture. -/
theorem c8_witness :
    sccGoodT.cvr.map (fun c => c.cvrId) = sccGoodRaw.rows.map (fun r => toInt32 r.cvrNum) :=
  c8_ballot_ids.2.2 [govMatcher] sccGoodRaw sccGoodT (by rfl)

/-- C9: if any identity invariant fails (imprinted id, ballot type, precinct
portion) or any contest description is unrecognized by the transformer chain,
the run errors out before the write step and nothing is handed to the writer;
conversely a run that reaches the writer has passed every check.  The last
conjunct states the same abort behavior for the document path. -/
theorem c9_fail_fast :
    (∀ (ts : List Matcher) (raw : SccRaw),
      ((¬ (sccIdPairs raw).all (fun r => imprintedOkRow r.2) = true) ∨
       (¬ ((sccIdPairs raw).map (fun r => (r.1, dropImprinted r.2))).all
          (fun r => ballotTypeOkRow r.2) = true) ∨
       (¬ ((sccIdPairs raw).map (fun r => (r.1, dropImprinted r.2))).all
          (fun r => precinctOkRow r.2) = true) ∨
       (∃ d ∈ sccContestCats raw, standardize ts d = none)) →
      ∃ e, sccPreprocessPath ts raw = .error e) ∧
    (∀ (ts : List Matcher) (raw : SccRaw) (w : SccWritten),
      sccPreprocessPath ts raw = .ok w →
      (sccIdPairs raw).all (fun r => imprintedOkRow r.2) = true ∧
      ((sccIdPairs raw).map (fun r => (r.1, dropImprinted r.2))).all
        (fun r => ballotTypeOkRow r.2) = true ∧
      ((sccIdPairs raw).map (fun r => (r.1, dropImprinted r.2))).all
        (fun r => precinctOkRow r.2) = true ∧
      ∀ d ∈ sccContestCats raw, (standardize ts d).isSome = true) ∧
    (∀ (ts : List Matcher) (raw : SfRaw),
      (∃ r ∈ raw.contestMan, sfStandardize ts r.description = none) →
      ∃ e, sfPreprocessPath ts raw = .error e) := by
  have key : ∀ (ts : List Matcher) (raw : SccRaw) (w : SccWritten),
      sccPreprocessPath ts raw = .ok w →
      (sccIdPairs raw).all (fun r => imprintedOkRow r.2) = true ∧
      ((sccIdPairs raw).map (fun r => (r.1, dropImprinted r.2))).all
        (fun r => ballotTypeOkRow r.2) = true ∧
      ((sccIdPairs raw).map (fun r => (r.1, dropImprinted r.2))).all
        (fun r => precinctOkRow r.2) = true ∧
      ∀ d ∈ sccContestCats raw, (standardize ts d).isSome = true := by
    intro ts raw w hw
    unfold sccPreprocessPath at hw
    rw [bind_ok_iff] at hw
    obtain ⟨t, ht, _⟩ := hw
    obtain ⟨ids2, cvr, co, h1, h2, h3, _⟩ := sccPreprocess_ok_parts ht
    obtain ⟨himp, hid⟩ := checkImprinted_ok h1
    rw [hid] at h2
    obtain ⟨hbt, hpr, _⟩ := sccCheckRest_ok h2
    obtain ⟨parsed, hp, _, _⟩ := sccSplitContest_ok h3
    exact ⟨himp, hbt, hpr, mapME_std_ok_isSome hp⟩
  have keysf : ∀ (ts : List Matcher) (raw : SfRaw) (w : SfWritten),
      sfPreprocessPath ts raw = .ok w →
      ∀ r ∈ raw.contestMan, (sfStandardize ts r.description).isSome = true := by
    intro ts raw w hw r hr
    unfold sfPreprocessPath at hw
    rw [bind_ok_iff] at hw
    obtain ⟨t, ht, _⟩ := hw
    obtain ⟨parsed, hp, _, _⟩ := sfPreprocess_ok_parts ht
    have hmem : sfCastContest r ∈
        sortByKey (fun c => c.contestId) (raw.contestMan.map sfCastContest) := by
      rw [mem_sortByKey]
      exact List.mem_map.mpr ⟨r, hr, rfl⟩
    obtain ⟨b, _, hfb⟩ := mapME_ok_forall hp _ hmem
    cases hs : sfStandardize ts (sfCastContest r).description with
    | some o =>
      rw [show sfStandardize ts r.description = some o from hs]
      rfl
    | none => rw [hs] at hfb; simp at hfb
  refine ⟨?_, key, ?_⟩
  · intro ts raw hbad
    cases hres : sccPreprocessPath ts raw with
    | error e => exact ⟨e, rfl⟩
    | ok w =>
      exfalso
      obtain ⟨himp, hbt, hpr, hstd⟩ := key ts raw w hres
      rcases hbad with hb | hb | hb | hb
      · exact hb himp
      · exact hb hbt
      · exact hb hpr
      · obtain ⟨d, hd, hnone⟩ := hb
        have := hstd d hd
        rw [hnone] at this
        simp at this
  · intro ts raw hbad
    cases hres : sfPreprocessPath ts raw with
    | error e => exact ⟨e, rfl⟩
    | ok w =>
      exfalso
      obtain ⟨r, hr, hnone⟩ := hbad
      have := keysf ts raw w hres r hr
      rw [hnone] at this
      simp at this

/-- Witness for C9: a bad imprinted id aborts the wide-path run before the
writer. -/
theorem c9_witness :
    ∃ e, sccPreprocessPath [govMatcher] sccBadImprintedRaw = .error e :=
  c9_fail_fast.1 [govMatcher] sccBadImprintedRaw (Or.inl (by decide))

/-- Witness for C10 at the `sfGoodRaw` fixture (NumOfRanks 3 overrides
VoteFor 1). -/
theorem c10_witness :
    ∃ r ∈ sfGoodRaw.contestMan,
      (⟨1, 100, 5, 3, 3, false, true, 0⟩ : SfContestRow).contestId = toInt16 r.id ∧
      ((⟨1, 100, 5, 3, 3, false, true, 0⟩ : SfContestRow).ranked = true ↔
        1 < toInt8 r.numOfRanks) ∧
      (⟨1, 100, 5, 3, 3, false, true, 0⟩ : SfContestRow).voteFor =
        (if 1 < toInt8 r.numOfRanks then toInt8 r.numOfRanks else toInt8 r.voteFor) :=
  c10_ranked_vote_for [govMatcher] sfGoodRaw sfGoodT (by rfl)
    ⟨1, 100, 5, 3, 3, false, true, 0⟩
    (by rw [show sfGoodT.contests = [⟨1, 100, 5, 3, 3, false, true, 0⟩] from rfl]
        exact List.mem_singleton_self _)

/-- C7 counterexample: the document path applies no write-in filter.  A raw
mark for candidate 50, listed in the manifest with type `"WriteIn"`, flows
into the output `Mark` table, refuting the claim for both vendor paths. -/
theorem c7_counterexample :
    (sfPreprocess [govMatcher] sfWriteInRaw).map sfNoWriteInMarks = .ok false := by decide

/-- C7 (amended): the wide-spreadsheet path drops every column whose candidate
header is exactly `"Write-in"` before reshaping, so every melted mark record
originates from a non-write-in column; the nested-document path applies no
such filter (see the counterexample). -/
theorem c7_writein_drop (cols : List MarkCol) (rows : List (Int × SccRow))
    (m : MeltRow) (h : m ∈ sccMelt cols rows) :
    ∃ c ∈ cols, c.candidate ≠ "Write-in" ∧
      m.contest = unnamedFix c.contest ∧
      m.candidate = bondFix (unnamedFix c.candidate) ++ ";" ++ unnamedFix c.party := by
  obtain ⟨col, hcol, hc1, hc2⟩ := sccMelt_origin h
  unfold updateColumnsOk at hcol
  rw [List.mem_map] at hcol
  obtain ⟨c0, hc0, hfc⟩ := hcol
  rw [List.mem_filter] at hc0
  refine ⟨c0, hc0.1, by simpa using hc0.2, ?_, ?_⟩
  · rw [hc1, ← hfc]
  · rw [hc2, ← hfc]

/-- Witness for C7 (amended): the single melted mark of the wide fixture comes
from the non-write-in `"Alice"` column. -/
theorem c7_witness :
    ∃ c ∈ sccGoodRaw.cols, c.candidate ≠ "Write-in" ∧
      ({ cvrId := 5, contest := "Governor (Vote For=1)", candidate := "Alice;DEM"
         rank := 1 } : MeltRow).contest = unnamedFix c.contest ∧
      ({ cvrId := 5, contest := "Governor (Vote For=1)", candidate := "Alice;DEM"
         rank := 1 } : MeltRow).candidate =
        bondFix (unnamedFix c.candidate) ++ ";" ++ unnamedFix c.party :=
  c7_writein_drop sccGoodRaw.cols (sccGoodRaw.rows.map (fun r => (toInt32 r.cvrNum, r)))
    _ (by decide)

/-- C4 counterexample: the standardization pipeline accepts
`"Governor,   Term (Vote For=0)"` (with a matcher resolving `"Governor"`) and
returns vote_for = 0 — not a positive integer — and term = "" — not a
non-empty string. -/
theorem c4_counterexample :
    standardize [govMatcher] "Governor,   Term (Vote For=0)" =
      some { level := "state", jurisdiction := "California", office := "Governor"
             district := "California", term := "", voteFor := 0 } := by decide

/-- C4 (amended): for every accepted contest description, vote_for is a
nonnegative integer (the `(Vote For=N)` suffix also accepts N = 0) and the
term label may be empty; level, jurisdiction, office and district are exactly
the fields returned by the first matching transformer, hence non-empty
whenever every transformer in the chain returns only non-empty fields. -/
theorem c4_accepted_fields (ts : List Matcher) (s : String) (c : StdContest)
    (h : standardize ts s = some c)
    (hne : ∀ t ∈ ts, ∀ x o, t x = some o →
      o.level ≠ "" ∧ o.jurisdiction ≠ "" ∧ o.office ≠ "" ∧ o.district ≠ "") :
    c.level ≠ "" ∧ c.jurisdiction ≠ "" ∧ c.office ≠ "" ∧ c.district ≠ "" := by
  unfold standardize at h
  dsimp only at h
  cases hvf : voteForSuffix (collapseSpaces s.toList) with
  | none => rw [hvf] at h; simp at h
  | some sv =>
    rw [hvf] at h
    dsimp only at h
    cases htr : transform (String.mk (termSuffix sv.1).1) ts with
    | none => rw [htr] at h; simp at h
    | some o =>
      rw [htr] at h
      dsimp only at h
      obtain ⟨t, ht, hto⟩ := transform_eq_some htr
      have hfields := hne t ht _ o hto
      have hco := Option.some.inj h
      rw [← hco]
      exact hfields

/-- Witness for C4 (amended): the example chain returns only non-empty
fields, so the accepted `"Governor (Vote For=1)"` yields non-empty office
fields. -/
theorem c4_witness :
    ({ level := "state", jurisdiction := "California", office := "Governor"
       district := "California", term := "Full", voteFor := 1 } : StdContest).level ≠ "" ∧
    ({ level := "state", jurisdiction := "California", office := "Governor"
       district := "California", term := "Full", voteFor := 1 } : StdContest).jurisdiction ≠ "" ∧
    ({ level := "state", jurisdiction := "California", office := "Governor"
       district := "California", term := "Full", voteFor := 1 } : StdContest).office ≠ "" ∧
    ({ level := "state", jurisdiction := "California", office := "Governor"
       district := "California", term := "Full", voteFor := 1 } : StdContest).district ≠ "" :=
  c4_accepted_fields [govMatcher] "Governor (Vote For=1)"
    { level := "state", jurisdiction := "California", office := "Governor"
      district := "California", term := "Full", voteFor := 1 }
    (by decide)
    (by
      intro t ht x o hxo
      rw [List.mem_singleton] at ht
      subst ht
      unfold govMatcher at hxo
      by_cases hx : x = "Governor"
      · rw [if_pos hx] at hxo
        have he := Option.some.inj hxo
        rw [← he]
        exact ⟨by decide, by decide, by decide, by decide⟩
      · rw [if_neg hx] at hxo
        simp at hxo)

/-- C6: the Identity Factorizer applies two distinct policies.  Office ids
(`factorizeCode`, the assignment used for the `office_id` column and the
`Office` table by `sccSplitContest`, `sfPreprocess` and `officesFrom`) group
contests by their `(level, jurisdiction, office, district)` tuple — equal
codes exactly for equal tuples — and are dense ids in first-seen order over
the contest processing sequence: a tuple whose first occurrence follows the
prefix `A` receives code `(firstSeen A).length`.  Contest and candidate ids
of the wide-spreadsheet path (`catCode`, the assignment used by `sccMarks`
over the distinct description strings of `sccSplitContest` and
`sccSplitCandidate`) are positions in the sorted order of the distinct
descriptions: order-isomorphic to the lexicographic code-point order
`strLeb`, bounded by the number of categories, with the k-th category
receiving id k — and this differs from first-seen order, as the codes of
`["b", "a"]` show. -/
theorem c6_factorization_policies :
    (∀ (tuples : List Office4), ∀ x ∈ tuples, ∀ y ∈ tuples,
      (factorizeCode tuples x = factorizeCode tuples y ↔ x = y)) ∧
    (∀ (A B : List Office4) (v : Office4), v ∉ A →
      factorizeCode (A ++ v :: B) v = (firstSeen A).length) ∧
    (∀ (descs : List String), ∀ d ∈ descs, ∀ e ∈ descs,
      (catCode descs d < catCode descs e ↔ strLeb d e = true ∧ d ≠ e)) ∧
    (∀ (descs : List String), ∀ d ∈ descs, catCode descs d < (categories descs).length) ∧
    (∀ (descs : List String) (k : Nat) (hk : k < (categories descs).length),
      catCode descs ((categories descs).get ⟨k, hk⟩) = k) ∧
    factorizeCodes ["b", "a"] ≠ ["b", "a"].map (catCode ["b", "a"]) := by
  refine ⟨?_, ?_, ?_, ?_, ?_, ?_⟩
  · intro tuples x hx y hy
    exact factorizeCode_inj hx hy
  · intro A B v hv
    exact factorizeCode_first_seen hv
  · intro descs d hd e he
    exact catCode_lt_iff hd he
  · intro descs d hd
    exact catCode_lt_length hd
  · intro descs k hk
    exact catCode_get descs k hk
  · decide

/-- C1 counterexample: the nested-document path hands the writer a Mark table
whose contest id 99 and candidate id 50 resolve to no Contest/Candidate row —
the run succeeds, so no referential-integrity assertion exists. -/
theorem c1_counterexample :
    (sfPreprocess [govMatcher] sfOrphanRaw).map sfMarksRefIntegrity = .ok false := by decide

/-- C1 (amended): neither ingestion path asserts referential integrity.  In
the wide-spreadsheet path every Mark's contest id and candidate id and every
Contest's office id resolve to existing rows by construction; in the
nested-document path every Contest's office id resolves by construction,
while Mark foreign keys are copied from the raw documents unchecked (see the
counterexample). -/
theorem c1_referential_integrity :
    (∀ (ts : List Matcher) (raw : SccRaw) (t : SccTables), sccPreprocess ts raw = .ok t →
      (∀ m ∈ t.marks, m.contestId ∈ t.contests.map (fun c => c.contestId) ∧
        m.candidateId ∈ t.candidates.map (fun c => c.candidateId)) ∧
      (∀ c ∈ t.contests, c.officeId ∈ t.offices.map (fun o => o.officeId))) ∧
    (∀ (ts : List Matcher) (raw : SfRaw) (t : SfTables), sfPreprocess ts raw = .ok t →
      ∀ c ∈ t.contests, c.officeId ∈ t.offices.map (fun o => o.officeId)) := by
  constructor
  · intro ts raw t h
    obtain ⟨ids2, cvr, co, h1, h2, h3, ht⟩ := sccPreprocess_ok_parts h
    obtain ⟨parsed, hp, hc1, hc2⟩ := sccSplitContest_ok h3
    have hmarks : t.marks =
        sccMarks ((updateColumnsOk raw.cols).map (fun c => c.contest))
          ((updateColumnsOk raw.cols).map (fun c => c.candidate))
          (sccMelt raw.cols (raw.rows.map (fun r => (toInt32 r.cvrNum, r)))) := by
      rw [ht]
    have hcont : t.contests = co.1 := by rw [ht]
    have hoff : t.offices = co.2 := by rw [ht]
    have hcands : t.candidates =
        sccSplitCandidate
          (categories ((updateColumnsOk raw.cols).map (fun c => c.candidate))) := by
      rw [ht]
    have hplen : parsed.length =
        (categories ((updateColumnsOk raw.cols).map (fun c => c.contest))).length :=
      mapME_ok_length hp
    have hzlen : (parsed.zip (factorizeCodes (parsed.map office4Of))).length =
        parsed.length := by
      rw [List.length_zip]
      unfold factorizeCodes
      rw [List.length_map, List.length_map]
      exact Nat.min_self _
    have hcmap : co.1.map (fun c => c.contestId) =
        (List.range (parsed.zip (factorizeCodes (parsed.map office4Of))).length).map
          (fun i : Nat => toInt16 (i : Int)) := by
      rw [hc1]
      exact enum_build_ids0 (fun c => c.contestId)
        (fun x => ({ contestId := toInt16 (x.1 : Int), term := x.2.1.term
                     voteFor := toInt8 (x.2.1.voteFor : Int), ranked := false
                     officeId := toInt16 (x.2.2 : Int) } : ContestRow))
        (fun x => rfl) (parsed.zip (factorizeCodes (parsed.map office4Of)))
    have hcandmap :
        (sccSplitCandidate
          (categories ((updateColumnsOk raw.cols).map (fun c => c.candidate)))).map
            (fun c => c.candidateId) =
        (List.range
          (categories ((updateColumnsOk raw.cols).map (fun c => c.candidate))).length).map
          (fun i : Nat => toInt16 (i : Int)) := by
      unfold sccSplitCandidate
      exact enum_build_ids0 (fun c => c.candidateId)
        (fun x => ({ candidateId := toInt16 (x.1 : Int), name := (splitSemi x.2).1
                     party := (splitSemi x.2).2 } : CandidateRow))
        (fun x => rfl)
        (categories ((updateColumnsOk raw.cols).map (fun c => c.candidate)))
    refine ⟨?_, ?_⟩
    · intro m hm
      rw [hmarks] at hm
      obtain ⟨m0, hm0, hme⟩ := sccMarks_mem hm
      obtain ⟨col, hcol, ho1, ho2⟩ := sccMelt_origin hm0
      have hdmem : m0.contest ∈ (updateColumnsOk raw.cols).map (fun c => c.contest) :=
        List.mem_map.mpr ⟨col, hcol, ho1.symm⟩
      have hcmem : m0.candidate ∈ (updateColumnsOk raw.cols).map (fun c => c.candidate) :=
        List.mem_map.mpr ⟨col, hcol, ho2.symm⟩
      have hlt1 := catCode_lt_length hdmem
      have hlt2 := catCode_lt_length hcmem
      have hmid : m.contestId = toInt16 (catCode ((updateColumnsOk raw.cols).map (fun c => c.contest)) m0.contest : Int) := by
        rw [hme]
      have hcid : m.candidateId = toInt16 (catCode ((updateColumnsOk raw.cols).map (fun c => c.candidate)) m0.candidate : Int) := by
        rw [hme]
      constructor
      · rw [hcont, hcmap, hmid]
        refine mem_range_map_toInt16 ?_
        rw [hzlen, hplen]
        exact hlt1
      · rw [hcands, hcandmap, hcid]
        exact mem_range_map_toInt16 hlt2
    · intro c hc
      rw [hcont, hc1] at hc
      rw [List.mem_map] at hc
      obtain ⟨x, hx, hcx⟩ := hc
      have hx2 : x.2 ∈ parsed.zip (factorizeCodes (parsed.map office4Of)) :=
        mem_of_mem_enum hx
      have hmem2 : (office4Of x.2.1, x.2.2) ∈
          (parsed.map office4Of).zip (factorizeCodes (parsed.map office4Of)) := by
        rw [List.zip_map_left]
        exact List.mem_map.mpr ⟨x.2, hx2, rfl⟩
      have hofm := officeId_mem_officesFrom (parsed.map office4Of)
        (office4Of x.2.1, x.2.2) hmem2
      rw [hoff, hc2, ← hcx]
      exact hofm
  · intro ts raw t h
    obtain ⟨parsed, hp, hcont, hoff⟩ := sfPreprocess_ok_parts h
    intro c hc
    rw [hcont] at hc
    rw [List.mem_map] at hc
    obtain ⟨x, hx, hcx⟩ := hc
    have hmem2 : (x.1.2, x.2) ∈
        (parsed.map (fun p => p.2)).zip (factorizeCodes (parsed.map (fun p => p.2))) := by
      rw [List.zip_map_left]
      exact List.mem_map.mpr ⟨x, hx, rfl⟩
    have hofm := officeId_mem_officesFrom (parsed.map (fun p => p.2)) (x.1.2, x.2) hmem2
    rw [hoff, ← hcx]
    exact hofm

/-- Witness for C1 (amended): every foreign key of the wide fixture's output
resolves. -/
theorem c1_witness :
    (∀ m ∈ sccGoodT.marks, m.contestId ∈ sccGoodT.contests.map (fun c => c.contestId) ∧
      m.candidateId ∈ sccGoodT.candidates.map (fun c => c.candidateId)) ∧
    (∀ c ∈ sccGoodT.contests, c.officeId ∈ sccGoodT.offices.map (fun o => o.officeId)) :=
  c1_referential_integrity.1 [govMatcher] sccGoodRaw sccGoodT (by rfl)

/-- Witness for C6: a tuple first occurring after one distinct tuple receives
the first-seen dense code 1. -/
theorem c6_witness :
    factorizeCode
        ([({ level := "a", jurisdiction := "b", office := "c", district := "d" } : Office4)] ++
          ({ level := "e", jurisdiction := "f", office := "g", district := "h" } : Office4) :: [])
        { level := "e", jurisdiction := "f", office := "g", district := "h" } =
      (firstSeen
        [({ level := "a", jurisdiction := "b", office := "c", district := "d" } : Office4)]).length :=
  c6_factorization_policies.2.1 _ _ _ (by decide)

end Rcv
